import Mathlib

/-!
# Verification of the drift-vaults share-accounting core

This file gives a shallow embedding of the vault-depositor share ledger of
the drift-vaults program (`programs/drift_vaults/src/state/vault_depositor.rs`
and `programs/drift_vaults/src/instructions/withdraw.rs`) and proves the
specified properties about it.

Machine integers are embedded as `Nat` (for `u32`/`u64`/`u128`) and `Int`
(for `i64`), with the checked (`safe_*`) arithmetic of the source made
explicit: every checked operation returns an error when the corresponding
fixed-width operation would overflow, underflow, or divide by zero.
Saturating operations saturate at the type bound.

Operations mutate the state step by step, exactly in source order; an
error result carries the state at the point of failure, mirroring the
behaviour of the Rust functions on `&mut` references.

Components of the repository that are referenced by the two embedded files
but whose sources are not available (the `Vault` aggregate, the
`WithdrawRequest` state machine, the `WithdrawUnit` conversion, the
`VaultDepositorBase` trait defaults, and constants) are modelled from the
specification; each such definition is marked `Modelled from the spec:` in
its doc comment.
-/

namespace DriftVaults

/-- Error codes of the vault program (`crate::error::ErrorCode`), restricted
to those raised by the embedded operations, plus `MathError` standing for
any checked-arithmetic failure propagated from `SafeMath`/`Cast`. -/
inductive VaultError where
  | VaultIsAtCapacity
  | InvalidVaultDeposit
  | InvalidVaultForNewDepositors
  | WithdrawInProgress
  | InvalidVaultRebase
  | InvalidVaultWithdrawSize
  | InvalidVaultWithdraw
  | InsufficientVaultShares
  | CannotWithdrawBeforeRedeemPeriodEnd
  | MathError
  deriving DecidableEq, Repr

/-- Largest value of a `u64`. -/
def U64MAX : Nat := 2 ^ 64 - 1

def U128MAX : Nat := 2 ^ 128 - 1

def I64MAX : Int := 2 ^ 63 - 1

def I64MIN : Int := -(2 ^ 63)

def addU (m a b : Nat) : Except VaultError Nat :=
  if a + b ≤ m then .ok (a + b) else .error .MathError

def subU (a b : Nat) : Except VaultError Nat :=
  if b ≤ a then .ok (a - b) else .error .MathError

def mulU (m a b : Nat) : Except VaultError Nat :=
  if a * b ≤ m then .ok (a * b) else .error .MathError

def divU (a b : Nat) : Except VaultError Nat :=
  if b = 0 then .error .MathError else .ok (a / b)

def addI (a b : Int) : Except VaultError Int :=
  if I64MIN ≤ a + b ∧ a + b ≤ I64MAX then .ok (a + b) else .error .MathError

def subI (a b : Int) : Except VaultError Int :=
  if I64MIN ≤ a - b ∧ a - b ≤ I64MAX then .ok (a - b) else .error .MathError

def castUtoI64 (a : Nat) : Except VaultError Int :=
  if (a : Int) ≤ I64MAX then .ok (a : Int) else .error .MathError

/-- Checked cast of an unsigned (`u128`) value down to `u64`
(`cast::<u64>()`). -/
def castUtoU64 (a : Nat) : Except VaultError Nat :=
  if a ≤ U64MAX then .ok a else .error .MathError

/-- Checked cast of a signed value to `u128` (`cast::<u128>()`). -/
def castItoU128 (a : Int) : Except VaultError Nat :=
  if 0 ≤ a then .ok a.toNat else .error .MathError

/-- Checked cast of an unsigned (`u128`) value to `i64` for accumulation
into a signed counter. -/
def castUtoI64Cum (a : Nat) : Except VaultError Int :=
  if (a : Int) ≤ I64MAX then .ok (a : Int) else .error .MathError

/-- Saturating `u64` addition (`saturating_add`), used only for the
informational lifetime counters. -/
def satAddU64 (a b : Nat) : Nat := min (a + b) U64MAX

/-- The `as u32` truncating cast applied to an `i64` timestamp
(`now as u32` in the source). -/
def asU32 (a : Int) : Nat := (a % (2 ^ 32 : Int)).toNat

/-- `PERCENTAGE_PRECISION` of the drift math library: the denominator of
all fee fractions. Its value (10^6) is fixed by the unit tests in the
source (a `profit_share` of `100_000` is commented as `10%`). -/
def PERCENTAGE_PRECISION : Nat := 1000000

/-- Modelled from the spec: `FUEL_SHARE_PRECISION`
(`crate::constants::FUEL_SHARE_PRECISION`), the fixed-point scale of the
per-share fuel accumulator. The constant's numeric value is not given by
the spec; the claims are stated symbolically in it, so any positive
constant is faithful. -/
def FUEL_SHARE_PRECISION : Nat := 10 ^ 18

/-- Modelled from the spec: `MAGIC_FUEL_START_TS`
(`crate::constants::MAGIC_FUEL_START_TS`), the reserved sentinel value of
`last_fuel_update_ts` meaning "joined after reward tracking began, no
retroactive accrual". The spec fixes only its role, not its value. -/
def MAGIC_FUEL_START_TS : Nat := 1

/-- Public keys, embedded as plain naturals; `0` is `Pubkey::default()`. -/
abbrev Pubkey := Nat

/-- Modelled from the spec: the per-depositor `WithdrawRequest` record
(`crate::state::withdraw_request::WithdrawRequest`, source not available).
Fields per spec section 3: the locked-in share count and value, snapshots
of the depositor's shares and the pool equity at request time, and the
request timestamp. The request is Pending exactly when `shares > 0`. -/
structure WithdrawRequest where
  shares : Nat
  value : Nat
  vault_shares_before : Nat
  vault_equity_before : Nat
  ts : Int
  deriving DecidableEq, Repr

namespace WithdrawRequest

/-- Modelled from the spec: a request is Pending iff it locks a positive
number of shares. -/
def pending (r : WithdrawRequest) : Bool := r.shares > 0

/-- Modelled from the spec: `WithdrawRequest::set`, recording a new
request: stores the locked-in `(shares, value)` pair, the snapshots, and
the timestamp. -/
def set (r : WithdrawRequest) (vaultSharesBefore nShares withdrawValue vaultEquity : Nat)
    (now : Int) : WithdrawRequest :=
  { r with
    shares := nShares
    value := withdrawValue
    vault_shares_before := vaultSharesBefore
    vault_equity_before := vaultEquity
    ts := now }

/-- Modelled from the spec: `WithdrawRequest::reset`, returning the
request to the Empty state and stamping the reset time. -/
def reset (r : WithdrawRequest) (now : Int) : WithdrawRequest :=
  { r with
    shares := 0
    value := 0
    vault_shares_before := 0
    vault_equity_before := 0
    ts := now }

end WithdrawRequest

/-- Modelled from the spec: the optional protocol co-beneficiary record
(`crate::state::VaultProtocol`, source not available): its profit-share
rate and its running share balance, tracked separately from the vault. -/
structure VaultProtocol where
  protocol_profit_share : Nat
  protocol_profit_and_fee_shares : Nat
  protocol_total_profit_share : Nat
  deriving DecidableEq, Repr

/-- Modelled from the spec: the vault-wide share ledger
(`crate::state::Vault`, source not available), restricted to the fields
the embedded operations read or write (spec section 3). -/
structure Vault where
  pubkey : Pubkey
  total_shares : Nat
  user_shares : Nat
  shares_base : Nat
  total_deposits : Nat
  total_withdraws : Nat
  net_deposits : Int
  total_withdraw_requested : Nat
  profit_share : Nat
  redeem_period : Int
  min_deposit_amount : Nat
  max_tokens : Nat
  liquidation_delegate : Pubkey
  deriving DecidableEq, Repr

/-- The per-depositor record (`VaultDepositor` of
`state/vault_depositor.rs`), translated field for field (the `padding`
array is dropped). -/
structure VaultDepositor where
  vault : Pubkey
  pubkey : Pubkey
  authority : Pubkey
  vault_shares : Nat
  last_withdraw_request : WithdrawRequest
  last_valid_ts : Int
  net_deposits : Int
  total_deposits : Nat
  total_withdraws : Nat
  cumulative_profit_share_amount : Int
  profit_share_fee_paid : Nat
  vault_shares_base : Nat
  last_fuel_update_ts : Nat
  cumulative_fuel_per_share_amount : Nat
  fuel_amount : Nat
  deriving DecidableEq, Repr

/-- The state acted on by one depositor operation: the shared vault
ledger, the optional protocol record, and the acting depositor. -/
structure St where
  vault : Vault
  vp : Option VaultProtocol
  vd : VaultDepositor
  deriving DecidableEq, Repr

/-- Result of a mutating operation: mirrors a Rust method on `&mut`
references; an error carries the state at the point of failure. -/
inductive Res (α : Type) where
  | ok : α → St → Res α
  | err : VaultError → St → Res α
  deriving DecidableEq, Repr

/-- Modelled from the spec: `vault_amount_to_if_shares` of the drift math
library (re-exported as `vault_amount_to_depositor_shares`): converts a
token amount into shares at the pre-operation price,
`shares = amount * total_shares / equity`, or `amount` itself when
`total_shares == 0` (spec section 4.6). Checked `u128` arithmetic. -/
def vaultAmountToDepositorShares (amount totalShares equity : Nat) :
    Except VaultError Nat :=
  if totalShares = 0 then .ok amount
  else do
    let p ← mulU U128MAX amount totalShares
    divU p equity

/-- Modelled from the spec: `if_shares_to_vault_amount` of the drift math
library (re-exported as `depositor_shares_to_vault_amount`): values a
share count at the current price, `amount = shares * equity /
total_shares`, zero when no shares exist. Checked `u128` arithmetic with a
final `u64` cast. -/
def depositorSharesToVaultAmount (shares totalShares equity : Nat) :
    Except VaultError Nat :=
  if totalShares = 0 then .ok 0
  else do
    let p ← mulU U128MAX shares equity
    let q ← divU p totalShares
    castUtoU64 q

/-- `VaultDepositor::validate_base` (`vault_depositor.rs` 144-154): the
depositor's rebase generation must match the ledger's. -/
def validateBase (vd : VaultDepositor) (v : Vault) : Except VaultError Unit :=
  if vd.vault_shares_base = v.shares_base then .ok () else .error .InvalidVaultRebase

/-- Modelled from the spec: `Vault::get_protocol_shares` — the protocol's
share balance, tracked in the protocol record, zero when no protocol
co-beneficiary is configured. -/
def getProtocolShares (vp : Option VaultProtocol) : Nat :=
  match vp with
  | none => 0
  | some p => p.protocol_profit_and_fee_shares

/-- Modelled from the spec: `Vault::get_manager_shares` — derived as the
complement `total_shares - user_shares - protocol_shares` (spec sections
3 and 4.1), an error when the complement would be negative. -/
def getManagerShares (v : Vault) (vp : Option VaultProtocol) : Except VaultError Nat := do
  let a ← subU v.total_shares v.user_shares
  subU a (getProtocolShares vp)

/-- Modelled from the spec: `Vault::apply_fee` (source not available).
The spec fixes its effect — new shares are minted to the manager and (when
configured) the protocol, diluting all holders: `total_shares` grows by
the fee shares, `user_shares` is untouched, and the protocol's tracked
balance grows by its part — but gives no formula for the amounts, so the
minted share counts are taken as parameters of every operation. -/
def applyFee (mgmtFeeShares protFeeShares : Nat) (s : St) : Res Unit :=
  match s.vp with
  | none =>
    match addU U128MAX s.vault.total_shares mgmtFeeShares with
    | .error e => .err e s
    | .ok t => .ok () { s with vault := { s.vault with total_shares := t } }
  | some p =>
    match addU U128MAX s.vault.total_shares (mgmtFeeShares + protFeeShares) with
    | .error e => .err e s
    | .ok t =>
      match addU U128MAX p.protocol_profit_and_fee_shares protFeeShares with
      | .error e => .err e s
      | .ok pt =>
        .ok () { s with
                 vault := { s.vault with total_shares := t }
                 vp := some { p with protocol_profit_and_fee_shares := pt } }

/-- `VaultDepositor::calculate_profit_share_and_update`
(`vault_depositor.rs` 200-234), translated step for step. The returned
depositor carries the mutations made up to the point of an error, exactly
as the Rust method mutates `self` in place. -/
def calculateProfitShareAndUpdate (vd : VaultDepositor) (totalAmount : Nat)
    (v : Vault) (vp : Option VaultProtocol) :
    Except VaultError (Nat × Nat) × VaultDepositor :=
  match castUtoI64 totalAmount with
  | .error e => (.error e, vd)
  | .ok ta =>
  match addI vd.net_deposits vd.cumulative_profit_share_amount with
  | .error e => (.error e, vd)
  | .ok nc =>
  match subI ta nc with
  | .error e => (.error e, vd)
  | .ok profit =>
  if profit > 0 then
    match mulU U128MAX profit.toNat v.profit_share with
    | .error e => (.error e, vd)
    | .ok mp =>
    match divU mp PERCENTAGE_PRECISION with
    | .error e => (.error e, vd)
    | .ok managerProfitShareAmount =>
    match (match vp with
           | none => Except.ok 0
           | some p => do
               let pp ← mulU U128MAX profit.toNat p.protocol_profit_share
               divU pp PERCENTAGE_PRECISION) with
    | .error e => (.error e, vd)
    | .ok protocolProfitShareAmount =>
    match addU U128MAX managerProfitShareAmount protocolProfitShareAmount with
    | .error e => (.error e, vd)
    | .ok profitShareAmount =>
    match castUtoI64Cum profit.toNat with
    | .error e => (.error e, vd)
    | .ok profitI =>
    match addI vd.cumulative_profit_share_amount profitI with
    | .error e => (.error e, vd)
    | .ok cum =>
    match castUtoU64 profitShareAmount with
    | .error e => (.error e, { vd with cumulative_profit_share_amount := cum })
    | .ok feeU =>
    match addU U64MAX vd.profit_share_fee_paid feeU with
    | .error e => (.error e, { vd with cumulative_profit_share_amount := cum })
    | .ok fee =>
      (.ok (managerProfitShareAmount, protocolProfitShareAmount),
       { vd with cumulative_profit_share_amount := cum, profit_share_fee_paid := fee })
  else
    (.ok (0, 0), vd)

/-- `VaultDepositor::update_cumulative_fuel_amount`
(`vault_depositor.rs` 894-953). The ledger-side
`Vault::update_cumulative_fuel_per_share` is modelled from the spec as
yielding the externally derived per-share accumulator, passed in as `A`
(its own vault-side bookkeeping is outside the embedded state). The
`FuelSeasonRecord` audit emission of `reset_fuel_amount` is an event, not
state, and is not modelled. -/
def updateCumulativeFuelAmount (now : Int) (A : Nat) (s : St) : Res Nat :=
  if asU32 now > s.vd.last_fuel_update_ts then
    if s.vd.last_fuel_update_ts ≠ MAGIC_FUEL_START_TS then
      if s.vd.cumulative_fuel_per_share_amount > A then
        let vd1 := { s.vd with
                     fuel_amount := 0
                     cumulative_fuel_per_share_amount := A
                     last_fuel_update_ts := asU32 now }
        .ok vd1.fuel_amount { s with vd := vd1 }
      else
        match validateBase s.vd s.vault with
        | .error e => .err e s
        | .ok _ =>
        match subU A s.vd.cumulative_fuel_per_share_amount with
        | .error e => .err e s
        | .ok delta =>
        match mulU U128MAX delta s.vd.vault_shares with
        | .error e => .err e s
        | .ok dm =>
        match divU dm FUEL_SHARE_PRECISION with
        | .error e => .err e s
        | .ok newFuel =>
        match addU U128MAX s.vd.fuel_amount newFuel with
        | .error e => .err e s
        | .ok fuel =>
          .ok fuel { s with vd := { s.vd with
                                    fuel_amount := fuel
                                    cumulative_fuel_per_share_amount := A
                                    last_fuel_update_ts := asU32 now } }
    else
      .ok s.vd.fuel_amount
        { s with vd := { s.vd with
                         cumulative_fuel_per_share_amount := A
                         last_fuel_update_ts := asU32 now } }
  else
    .ok s.vd.fuel_amount s

/-- Modelled from the spec: `VaultDepositorBase::apply_profit_share`
(trait default, source not available). Per spec section 4.4: value the
depositor's shares at the supplied valuation, charge the profit share via
`calculate_profit_share_and_update`, convert the manager and protocol
amounts into shares at the current price, move those shares from the
depositor (and `user_shares`) to the beneficiaries — none are minted, so
`total_shares` is unchanged — crediting the protocol's tracked balance
with its part. -/
def applyProfitShareBase (vaultEquity : Nat) (s : St) : Res (Nat × Nat) :=
  match depositorSharesToVaultAmount s.vd.vault_shares s.vault.total_shares vaultEquity with
  | .error e => .err e s
  | .ok totalAmount =>
  match calculateProfitShareAndUpdate s.vd totalAmount s.vault s.vp with
  | (.error e, vd1) => .err e { s with vd := vd1 }
  | (.ok (mgr, prot), vd1) =>
  let s1 : St := { s with vd := vd1 }
  match vaultAmountToDepositorShares mgr s1.vault.total_shares vaultEquity with
  | .error e => .err e s1
  | .ok mgrShares =>
  match vaultAmountToDepositorShares prot s1.vault.total_shares vaultEquity with
  | .error e => .err e s1
  | .ok protShares =>
  match validateBase s1.vd s1.vault with
  | .error e => .err e s1
  | .ok _ =>
  match subU s1.vd.vault_shares (mgrShares + protShares) with
  | .error e => .err e s1
  | .ok vs =>
  let s2 : St := { s1 with vd := { s1.vd with vault_shares := vs } }
  match subU s2.vault.user_shares (mgrShares + protShares) with
  | .error e => .err e s2
  | .ok us =>
  let s3 : St := { s2 with vault := { s2.vault with user_shares := us } }
  match s3.vp with
  | none =>
    match castUtoU64 mgr with
    | .error e => .err e s3
    | .ok mgrU =>
    match castUtoU64 prot with
    | .error e => .err e s3
    | .ok protU => .ok (mgrU, protU) s3
  | some p =>
    match addU U128MAX p.protocol_profit_and_fee_shares protShares with
    | .error e => .err e s3
    | .ok pt =>
    let s4 : St := { s3 with vp := some { p with protocol_profit_and_fee_shares := pt } }
    match castUtoU64 mgr with
    | .error e => .err e s4
    | .ok mgrU =>
    match castUtoU64 prot with
    | .error e => .err e s4
    | .ok protU => .ok (mgrU, protU) s4

/-- `VaultDepositor::apply_profit_share` (`vault_depositor.rs` 716-732):
rejected outright while a withdraw request is Pending, then settles fuel,
then delegates to the base profit-share routine. -/
def applyProfitShare (vaultEquity : Nat) (now : Int) (A : Nat) (s : St) : Res (Nat × Nat) :=
  if s.vd.last_withdraw_request.pending then .err .InvalidVaultDeposit s
  else
    match updateCumulativeFuelAmount now A s with
    | .err e s1 => .err e s1
    | .ok _ s1 => applyProfitShareBase vaultEquity s1

/-- Modelled from the spec: `WithdrawRequest::check_redeem_period_finished`
— the time-lock: fails with the time-lock error unless
`now ≥ request.ts + redeem_period` (spec section 4.3), the elapsed time
being computed with checked `i64` subtraction. -/
def checkRedeemPeriodFinished (r : WithdrawRequest) (v : Vault) (now : Int) :
    Except VaultError Unit :=
  match subI now r.ts with
  | .error e => .error e
  | .ok dt =>
    if dt ≥ v.redeem_period then .ok () else .error .CannotWithdrawBeforeRedeemPeriodEnd

/-- Modelled from the spec: `WithdrawRequest::calculate_shares_lost` — the
value drift penalty on cancel: the current value of the locked-in share
count is compared with the locked-in value; when the current value is
higher, the windfall (converted back into shares at the current price) is
the share count to forfeit, otherwise nothing is lost. The spec flags the
exact rounding of this formula as not fully specified; the claims about
`cancel_withdraw_request` are stated in terms of this function's result,
so they do not depend on the choice. -/
def calculateSharesLost (r : WithdrawRequest) (v : Vault) (vaultEquity : Nat) :
    Except VaultError Nat :=
  match depositorSharesToVaultAmount r.shares v.total_shares vaultEquity with
  | .error e => .error e
  | .ok currentValue =>
    if currentValue > r.value then
      vaultAmountToDepositorShares (currentValue - r.value) v.total_shares vaultEquity
    else .ok 0

/-- Modelled from the spec: `WithdrawUnit` — the unit in which a
withdrawal is requested (token amount, share count, or percentage of the
depositor's shares), spec section 4.6. -/
inductive WithdrawUnit where
  | Shares
  | Token
  | SharesPercent
  deriving DecidableEq, Repr

/-- Modelled from the spec: `WithdrawUnit::get_withdraw_value_and_shares`
— converts the requested amount, share count, or percentage into a
concrete `(value, shares)` pair at the current price (spec section 4.6).
A percentage above 100% is rejected. -/
def WithdrawUnit.getWithdrawValueAndShares (u : WithdrawUnit)
    (withdrawAmount vaultEquity vdShares totalShares : Nat) :
    Except VaultError (Nat × Nat) :=
  match u with
  | .Token => do
      let shares ← vaultAmountToDepositorShares withdrawAmount totalShares vaultEquity
      .ok (withdrawAmount, shares)
  | .Shares => do
      let value ← depositorSharesToVaultAmount withdrawAmount totalShares vaultEquity
      .ok (value, withdrawAmount)
  | .SharesPercent =>
      if withdrawAmount > PERCENTAGE_PRECISION then .error .InvalidVaultWithdrawSize
      else do
        let p ← mulU U128MAX vdShares withdrawAmount
        let shares ← divU p PERCENTAGE_PRECISION
        let value ← depositorSharesToVaultAmount shares totalShares vaultEquity
        .ok (value, shares)

/-- The capacity precondition of `deposit` (`vault_depositor.rs` 248-254):
`max_tokens == 0 || max_tokens >= vault_equity.safe_add(amount)?`, with
the short-circuit of `||` (the checked addition is not evaluated when
`max_tokens == 0`). -/
def capacityCheck (v : Vault) (vaultEquity amount : Nat) : Except VaultError Unit :=
  if v.max_tokens = 0 then .ok ()
  else
    match addU U64MAX vaultEquity amount with
    | .error e => .error e
    | .ok t => if v.max_tokens ≥ t then .ok () else .error .VaultIsAtCapacity

/-- `VaultDepositor::deposit` (`vault_depositor.rs` 237-365), translated
in source order. `apply_rebase` is modelled from the spec as not firing
(the spec gives the rebase trigger no formula); the audit-record emission
is not state. The fuel accumulator `A` and the minted fee shares
`mgmtFeeShares`/`protFeeShares` are the modelled inputs of the fuel and
fee collaborators. -/
def deposit (amount vaultEquity : Nat) (now : Int) (A mgmtFeeShares protFeeShares : Nat)
    (s : St) : Res Unit :=
  match capacityCheck s.vault vaultEquity amount with
  | .error e => .err e s
  | .ok _ =>
  if ¬ (s.vault.min_deposit_amount = 0 ∨ s.vault.min_deposit_amount ≤ amount) then
    .err .InvalidVaultDeposit s
  else if vaultEquity = 0 ∧ s.vault.total_shares ≠ 0 then
    .err .InvalidVaultForNewDepositors s
  else if s.vd.last_withdraw_request.pending then
    .err .WithdrawInProgress s
  else
  match validateBase s.vd s.vault with
  | .error e => .err e s
  | .ok _ =>
  match applyFee mgmtFeeShares protFeeShares s with
  | .err e s1 => .err e s1
  | .ok _ s1 =>
  match applyProfitShare vaultEquity now A s1 with
  | .err e s2 => .err e s2
  | .ok _ s2 =>
  match vaultAmountToDepositorShares amount s2.vault.total_shares vaultEquity with
  | .error e => .err e s2
  | .ok nShares =>
  let s3 : St := { s2 with vd := { s2.vd with
                                   total_deposits := satAddU64 s2.vd.total_deposits amount } }
  match castUtoI64 amount with
  | .error e => .err e s3
  | .ok amtI =>
  match addI s3.vd.net_deposits amtI with
  | .error e => .err e s3
  | .ok nd =>
  let s4 : St := { s3 with vd := { s3.vd with net_deposits := nd } }
  let s5 : St := { s4 with vault := { s4.vault with
                                      total_deposits := satAddU64 s4.vault.total_deposits amount } }
  match addI s5.vault.net_deposits amtI with
  | .error e => .err e s5
  | .ok vnd =>
  let s6 : St := { s5 with vault := { s5.vault with net_deposits := vnd } }
  match validateBase s6.vd s6.vault with
  | .error e => .err e s6
  | .ok _ =>
  match addU U128MAX s6.vd.vault_shares nShares with
  | .error e => .err e s6
  | .ok vs =>
  let s7 : St := { s6 with vd := { s6.vd with vault_shares := vs } }
  match addU U128MAX s7.vault.total_shares nShares with
  | .error e => .err e s7
  | .ok ts2 =>
  let s8 : St := { s7 with vault := { s7.vault with total_shares := ts2 } }
  match addU U128MAX s8.vault.user_shares nShares with
  | .error e => .err e s8
  | .ok us2 =>
  let s9 : St := { s8 with vault := { s8.vault with user_shares := us2 } }
  match validateBase s9.vd s9.vault with
  | .error e => .err e s9
  | .ok _ => .ok () s9

/-- `VaultDepositor::request_withdraw` (`vault_depositor.rs` 368-478),
translated in source order; `apply_rebase` modelled as not firing. -/
def requestWithdraw (withdrawAmount : Nat) (unit : WithdrawUnit) (vaultEquity : Nat)
    (now : Int) (A mgmtFeeShares protFeeShares : Nat) (s : St) : Res Unit :=
  match applyFee mgmtFeeShares protFeeShares s with
  | .err e s1 => .err e s1
  | .ok _ s1 =>
  match applyProfitShare vaultEquity now A s1 with
  | .err e s2 => .err e s2
  | .ok _ s2 =>
  match unit.getWithdrawValueAndShares withdrawAmount vaultEquity s2.vd.vault_shares
      s2.vault.total_shares with
  | .error e => .err e s2
  | .ok (withdrawValue, nShares) =>
  if nShares = 0 then .err .InvalidVaultWithdrawSize s2
  else
  match validateBase s2.vd s2.vault with
  | .error e => .err e s2
  | .ok _ =>
  let s3 : St := { s2 with vd := { s2.vd with
    last_withdraw_request := s2.vd.last_withdraw_request.set s2.vd.vault_shares nShares
      withdrawValue vaultEquity now } }
  match addU U64MAX s3.vault.total_withdraw_requested withdrawValue with
  | .error e => .err e s3
  | .ok twr =>
  let s4 : St := { s3 with vault := { s3.vault with total_withdraw_requested := twr } }
  match validateBase s4.vd s4.vault with
  | .error e => .err e s4
  | .ok _ => .ok () s4

/-- `VaultDepositor::cancel_withdraw_request` (`vault_depositor.rs`
481-581), translated in source order; `apply_rebase` modelled as not
firing. The ownership test compares the pre-fee snapshots, exactly as the
source captures them before `apply_fee`. -/
def cancelWithdrawRequest (vaultEquity : Nat) (now : Int)
    (A mgmtFeeShares protFeeShares : Nat) (s : St) : Res Unit :=
  match validateBase s.vd s.vault with
  | .error e => .err e s
  | .ok _ =>
  let vdSharesBefore := s.vd.vault_shares
  let totalSharesBefore := s.vault.total_shares
  match applyFee mgmtFeeShares protFeeShares s with
  | .err e s1 => .err e s1
  | .ok _ s1 =>
  match updateCumulativeFuelAmount now A s1 with
  | .err e s2 => .err e s2
  | .ok _ s2 =>
  match calculateSharesLost s2.vd.last_withdraw_request s2.vault vaultEquity with
  | .error e => .err e s2
  | .ok sharesLost =>
  match (if sharesLost > 0 ∧ ¬ totalSharesBefore = vdSharesBefore then
           match validateBase s2.vd s2.vault with
           | .error e => Res.err e s2
           | .ok _ =>
           match subU s2.vd.vault_shares sharesLost with
           | .error e => Res.err e s2
           | .ok vs =>
           let sa : St := { s2 with vd := { s2.vd with vault_shares := vs } }
           match subU sa.vault.total_shares sharesLost with
           | .error e => Res.err e sa
           | .ok t =>
           let sb : St := { sa with vault := { sa.vault with total_shares := t } }
           match subU sb.vault.user_shares sharesLost with
           | .error e => Res.err e sb
           | .ok u => Res.ok () { sb with vault := { sb.vault with user_shares := u } }
         else Res.ok () s2) with
  | .err e s3 => .err e s3
  | .ok _ s3 =>
  match validateBase s3.vd s3.vault with
  | .error e => .err e s3
  | .ok _ =>
  match subU s3.vault.total_withdraw_requested s3.vd.last_withdraw_request.value with
  | .error e => .err e s3
  | .ok twr =>
  let s4 : St := { s3 with vault := { s3.vault with total_withdraw_requested := twr } }
  .ok () { s4 with vd := { s4.vd with
                           last_withdraw_request := s4.vd.last_withdraw_request.reset now } }

/-- `VaultDepositor::withdraw` (`vault_depositor.rs` 584-713), translated
in source order; `apply_rebase` modelled as not firing. Returns the token
payout and the `finishing_liquidation` flag. -/
def withdraw (vaultEquity : Nat) (now : Int) (A mgmtFeeShares protFeeShares : Nat)
    (s : St) : Res (Nat × Bool) :=
  match checkRedeemPeriodFinished s.vd.last_withdraw_request s.vault now with
  | .error e => .err e s
  | .ok _ =>
  match updateCumulativeFuelAmount now A s with
  | .err e s1 => .err e s1
  | .ok _ s1 =>
  match validateBase s1.vd s1.vault with
  | .error e => .err e s1
  | .ok _ =>
  let nShares := s1.vd.last_withdraw_request.shares
  if nShares = 0 then .err .InvalidVaultWithdraw s1
  else if ¬ nShares ≤ s1.vd.vault_shares then .err .InsufficientVaultShares s1
  else
  match applyFee mgmtFeeShares protFeeShares s1 with
  | .err e s2 => .err e s2
  | .ok _ s2 =>
  match depositorSharesToVaultAmount nShares s2.vault.total_shares vaultEquity with
  | .error e => .err e s2
  | .ok amount =>
  let withdrawAmount := min amount s2.vd.last_withdraw_request.value
  match validateBase s2.vd s2.vault with
  | .error e => .err e s2
  | .ok _ =>
  match subU s2.vd.vault_shares nShares with
  | .error e => .err e s2
  | .ok vs =>
  let s3 : St := { s2 with vd := { s2.vd with vault_shares := vs } }
  let s4 : St := { s3 with vd := { s3.vd with
                                   total_withdraws := satAddU64 s3.vd.total_withdraws withdrawAmount } }
  match castUtoI64 withdrawAmount with
  | .error e => .err e s4
  | .ok waI =>
  match subI s4.vd.net_deposits waI with
  | .error e => .err e s4
  | .ok nd =>
  let s5 : St := { s4 with vd := { s4.vd with net_deposits := nd } }
  let s6 : St := { s5 with vault := { s5.vault with
                                      total_withdraws := satAddU64 s5.vault.total_withdraws withdrawAmount } }
  match subI s6.vault.net_deposits waI with
  | .error e => .err e s6
  | .ok vnd =>
  let s7 : St := { s6 with vault := { s6.vault with net_deposits := vnd } }
  match subU s7.vault.total_shares nShares with
  | .error e => .err e s7
  | .ok t =>
  let s8 : St := { s7 with vault := { s7.vault with total_shares := t } }
  match subU s8.vault.user_shares nShares with
  | .error e => .err e s8
  | .ok u =>
  let s9 : St := { s8 with vault := { s8.vault with user_shares := u } }
  match subU s9.vault.total_withdraw_requested s9.vd.last_withdraw_request.value with
  | .error e => .err e s9
  | .ok twr =>
  let s10 : St := { s9 with vault := { s9.vault with total_withdraw_requested := twr } }
  let s11 : St := { s10 with vd := { s10.vd with
                                     last_withdraw_request := s10.vd.last_withdraw_request.reset now } }
  match validateBase s11.vd s11.vault with
  | .error e => .err e s11
  | .ok _ =>
  let finishingLiquidation := s11.vault.liquidation_delegate = s11.vd.authority
  .ok (withdrawAmount, finishingLiquidation) s11

/-- `VaultDepositor::realize_profits` (`vault_depositor.rs` 735-819): the
standalone fee/profit-share settlement operation. -/
def realizeProfits (vaultEquity : Nat) (now : Int) (A mgmtFeeShares protFeeShares : Nat)
    (s : St) : Res Nat :=
  match applyFee mgmtFeeShares protFeeShares s with
  | .err e s1 => .err e s1
  | .ok _ s1 =>
  match validateBase s1.vd s1.vault with
  | .error e => .err e s1
  | .ok _ =>
  match applyProfitShare vaultEquity now A s1 with
  | .err e s2 => .err e s2
  | .ok (mgr, prot) s2 => .ok (satAddU64 mgr prot) s2

/-- The `withdraw` instruction handler (`instructions/withdraw.rs`
20-88), restricted to its effect on the embedded state: it runs the core
withdraw and, exactly when the returned `finishing_liquidation` flag is
true, clears the vault's liquidation delegate
(`Vault::reset_liquidation_delegate`, modelled from the spec as resetting
the delegate to the default key). The token transfer and drift CPIs act
on external state only. -/
def withdrawIx (vaultEquity : Nat) (now : Int) (A mgmtFeeShares protFeeShares : Nat)
    (s : St) : Res (Nat × Bool) :=
  match withdraw vaultEquity now A mgmtFeeShares protFeeShares s with
  | .err e s1 => .err e s1
  | .ok (amt, fin) s1 =>
    if fin then .ok (amt, fin) { s1 with vault := { s1.vault with liquidation_delegate := 0 } }
    else .ok (amt, fin) s1

/-- A small concrete vault used by the witnesses: 200 total shares, 100
of them user shares, a 10% manager profit share, a 10-second redeem
period, no capacity or minimum-deposit limits. -/
def vFix : Vault :=
  { pubkey := 1
    total_shares := 200
    user_shares := 100
    shares_base := 0
    total_deposits := 0
    total_withdraws := 0
    net_deposits := 0
    total_withdraw_requested := 0
    profit_share := 100000
    redeem_period := 10
    min_deposit_amount := 0
    max_tokens := 0
    liquidation_delegate := 0 }

/-- A concrete protocol co-beneficiary with a 5% profit share and no
shares yet. -/
def vpFix : VaultProtocol :=
  { protocol_profit_share := 50000
    protocol_profit_and_fee_shares := 0
    protocol_total_profit_share := 0 }

/-- The empty withdraw request. -/
def reqEmpty : WithdrawRequest :=
  { shares := 0, value := 0, vault_shares_before := 0, vault_equity_before := 0, ts := 0 }

/-- A concrete depositor holding 100 shares with no history and no
pending request. -/
def vdFix : VaultDepositor :=
  { vault := 1
    pubkey := 2
    authority := 3
    vault_shares := 100
    last_withdraw_request := reqEmpty
    last_valid_ts := 0
    net_deposits := 0
    total_deposits := 0
    total_withdraws := 0
    cumulative_profit_share_amount := 0
    profit_share_fee_paid := 0
    vault_shares_base := 0
    last_fuel_update_ts := MAGIC_FUEL_START_TS
    cumulative_fuel_per_share_amount := 0
    fuel_amount := 0 }

/-- `vdFix` after a profit-share charge on a total value of 200: the
whole 200 is profit, 20 goes to the manager (10%), 10 to the protocol
(5%). -/
def vdFixCharged : VaultDepositor :=
  { vdFix with
    cumulative_profit_share_amount := 200
    profit_share_fee_paid := 30 }

/-- The fuel-witness state: a depositor past the sentinel (last update at
time 5) with a zero stored accumulator and 100 shares. -/
def sFuel : St :=
  { vault := vFix
    vp := none
    vd := { vdFix with last_fuel_update_ts := 5 } }

/-- `sFuel` after a fuel settlement at time 100 with accumulator
`2 * 10^18`: the depositor earns `2 * 10^18 * 100 / 10^18 = 200` fuel. -/
def sFuelAfter : St :=
  { sFuel with vd := { sFuel.vd with
                       fuel_amount := 200
                       cumulative_fuel_per_share_amount := 2 * 10 ^ 18
                       last_fuel_update_ts := 100 } }

/-- The total number of shares minted by `applyFee`: the protocol part is
minted only when a protocol co-beneficiary is configured. -/
def feeMint (vp : Option VaultProtocol) (m p : Nat) : Nat :=
  match vp with
  | none => m
  | some _ => m + p

/-- The share count credited to the protocol's tracked balance by
`applyFee`. -/
def protMint (vp : Option VaultProtocol) (p : Nat) : Nat :=
  match vp with
  | none => 0
  | some _ => p

/-- The withdraw-witness state: `vdFix` with a pending request locking 50
shares at value 100, requested at time 0, inside `vFix` with 100 reserved
as requested withdrawals. -/
def sW : St :=
  { vault := { vFix with total_withdraw_requested := 100 }
    vp := none
    vd := { vdFix with last_withdraw_request :=
              { shares := 50, value := 100, vault_shares_before := 100,
                vault_equity_before := 400, ts := 0 } } }

/-- The cancel-witness state: a pending request locking 50 shares at a
stale value of 10 (current value 100), inside `vFix` with 100 reserved;
the depositor does not own the entire pool. -/
def sC : St :=
  { vault := { vFix with total_withdraw_requested := 100 }
    vp := none
    vd := { vdFix with last_withdraw_request :=
              { shares := 50, value := 10, vault_shares_before := 100,
                vault_equity_before := 400, ts := 0 } } }

/-- `sC` after the cancel: 45 shares are forfeited into the common pool
and the 10-unit reservation is released. -/
def sCAfter : St :=
  { vault := { vFix with
               total_shares := 155
               user_shares := 55
               total_withdraw_requested := 90 }
    vp := none
    vd := { vdFix with vault_shares := 55 } }

/-- A state one checked addition away from `i64` overflow: the depositor's
lifetime `net_deposits` sits at `i64::MAX` inside an empty pool. -/
def sOvf : St :=
  { vault := { vFix with total_shares := 0, user_shares := 0 }
    vp := none
    vd := { vdFix with vault_shares := 0, net_deposits := (2 : Int) ^ 63 - 1 } }

/-- A multi-depositor system state: the shared vault ledger, the optional
protocol record, and the depositor accounts. -/
structure Sys where
  vault : Vault
  vp : Option VaultProtocol
  vds : List VaultDepositor
  deriving DecidableEq, Repr

/-- The sum of all depositors' `vault_shares`. -/
def sumShares : List VaultDepositor → Nat
  | [] => 0
  | vd :: rest => vd.vault_shares + sumShares rest

def subSt (sys : Sys) (vd : VaultDepositor) : St :=
  { vault := sys.vault, vp := sys.vp, vd := vd }

/-- Write an operation's result back into the system, replacing depositor
`i`. -/
def sysUpdate (sys : Sys) (i : Nat) (st : St) : Sys :=
  { vault := st.vault, vp := st.vp, vds := sys.vds.set i st.vd }

/-- One successful operation of the ledger: a deposit, withdraw request,
cancel, withdraw, standalone fee application, or standalone fee-and-
profit-share settlement, executed by depositor `i` against the shared
vault. -/
inductive Step : Sys → Sys → Prop where
  | deposit : ∀ (sys : Sys) (i : Nat) (vd : VaultDepositor) (amount e : Nat)
      (now : Int) (A m p : Nat) (u : Unit) (st' : St),
      sys.vds.get? i = some vd →
      deposit amount e now A m p (subSt sys vd) = .ok u st' →
      Step sys (sysUpdate sys i st')
  | request : ∀ (sys : Sys) (i : Nat) (vd : VaultDepositor) (wa : Nat)
      (unit : WithdrawUnit) (e : Nat) (now : Int) (A m p : Nat) (u : Unit) (st' : St),
      sys.vds.get? i = some vd →
      requestWithdraw wa unit e now A m p (subSt sys vd) = .ok u st' →
      Step sys (sysUpdate sys i st')
  | cancel : ∀ (sys : Sys) (i : Nat) (vd : VaultDepositor) (e : Nat) (now : Int)
      (A m p : Nat) (u : Unit) (st' : St),
      sys.vds.get? i = some vd →
      cancelWithdrawRequest e now A m p (subSt sys vd) = .ok u st' →
      Step sys (sysUpdate sys i st')
  | withdraw : ∀ (sys : Sys) (i : Nat) (vd : VaultDepositor) (e : Nat) (now : Int)
      (A m p : Nat) (amt : Nat) (fin : Bool) (st' : St),
      sys.vds.get? i = some vd →
      withdraw e now A m p (subSt sys vd) = .ok (amt, fin) st' →
      Step sys (sysUpdate sys i st')
  | fee : ∀ (sys : Sys) (i : Nat) (vd : VaultDepositor) (m p : Nat) (u : Unit)
      (st' : St),
      sys.vds.get? i = some vd →
      applyFee m p (subSt sys vd) = .ok u st' →
      Step sys (sysUpdate sys i st')
  | realize : ∀ (sys : Sys) (i : Nat) (vd : VaultDepositor) (e : Nat) (now : Int)
      (A m p : Nat) (r : Nat) (st' : St),
      sys.vds.get? i = some vd →
      realizeProfits e now A m p (subSt sys vd) = .ok r st' →
      Step sys (sysUpdate sys i st')

/-- The share-conservation invariant: `user_shares` is exactly the sum of
all depositors' shares, and the manager complement
`total_shares - user_shares - protocol_shares` is non-negative. -/
def Inv (sys : Sys) : Prop :=
  sys.vault.user_shares = sumShares sys.vds ∧
  sys.vault.user_shares + getProtocolShares sys.vp ≤ sys.vault.total_shares

instance (sys : Sys) : Decidable (Inv sys) := by
  unfold Inv
  infer_instance

/-- A one-depositor initial system satisfying the invariant: `vFix` with
the single depositor `vdFix` (100 of 200 shares). -/
def sys0 : Sys := { vault := vFix, vp := none, vds := [vdFix] }

theorem addU_ok_iff {m a b c : Nat} : addU m a b = .ok c ↔ a + b ≤ m ∧ c = a + b := by
  unfold addU; split <;> simp_all [eq_comm]

theorem subU_ok_iff {a b c : Nat} : subU a b = .ok c ↔ b ≤ a ∧ c = a - b := by
  unfold subU; split <;> simp_all [eq_comm]

theorem mulU_ok_iff {m a b c : Nat} : mulU m a b = .ok c ↔ a * b ≤ m ∧ c = a * b := by
  unfold mulU; split <;> simp_all [eq_comm]

theorem divU_ok_iff {a b c : Nat} : divU a b = .ok c ↔ b ≠ 0 ∧ c = a / b := by
  unfold divU; split <;> simp_all [eq_comm]

theorem addI_ok_iff {a b c : Int} :
    addI a b = .ok c ↔ (I64MIN ≤ a + b ∧ a + b ≤ I64MAX) ∧ c = a + b := by
  unfold addI; split <;> simp_all [eq_comm]

theorem subI_ok_iff {a b c : Int} :
    subI a b = .ok c ↔ (I64MIN ≤ a - b ∧ a - b ≤ I64MAX) ∧ c = a - b := by
  unfold subI; split <;> simp_all [eq_comm]

theorem castUtoI64_ok_iff {a : Nat} {c : Int} :
    castUtoI64 a = .ok c ↔ (a : Int) ≤ I64MAX ∧ c = (a : Int) := by
  unfold castUtoI64; split <;> simp_all [eq_comm]

theorem castUtoI64Cum_ok_iff {a : Nat} {c : Int} :
    castUtoI64Cum a = .ok c ↔ (a : Int) ≤ I64MAX ∧ c = (a : Int) := by
  unfold castUtoI64Cum; split <;> simp_all [eq_comm]

theorem castUtoU64_ok_iff {a c : Nat} : castUtoU64 a = .ok c ↔ a ≤ U64MAX ∧ c = a := by
  unfold castUtoU64; split <;> simp_all [eq_comm]

theorem validateBase_ok_iff {vd : VaultDepositor} {v : Vault} {u : Unit} :
    validateBase vd v = .ok u ↔ vd.vault_shares_base = v.shares_base := by
  unfold validateBase; split <;> simp_all

/-- Claim C3: for every successful call to
`calculate_profit_share_and_update` with depositor total value
`totalAmount`, let `profit = totalAmount - (net_deposits +
cumulative_profit_share_amount)`: if `profit ≤ 0` the call returns
`(0, 0)` and changes no depositor field; if `profit > 0` it returns the
manager share `profit * profit_share / PERCENTAGE_PRECISION` and the
protocol share `profit * protocol_profit_share / PERCENTAGE_PRECISION`
(zero when no protocol is configured), adds exactly `profit` to
`cumulative_profit_share_amount`, and adds the sum of the two shares to
`profit_share_fee_paid` — so `cumulative_profit_share_amount` never
decreases. -/
theorem claim_C3 (vd : VaultDepositor) (totalAmount : Nat) (v : Vault)
    (vp : Option VaultProtocol) (m p : Nat) (vd' : VaultDepositor)
    (h : calculateProfitShareAndUpdate vd totalAmount v vp = (.ok (m, p), vd')) :
    (((totalAmount : Int) - (vd.net_deposits + vd.cumulative_profit_share_amount) ≤ 0 →
        m = 0 ∧ p = 0 ∧ vd' = vd) ∧
     (0 < (totalAmount : Int) - (vd.net_deposits + vd.cumulative_profit_share_amount) →
        m = ((totalAmount : Int) - (vd.net_deposits + vd.cumulative_profit_share_amount)).toNat
              * v.profit_share / PERCENTAGE_PRECISION ∧
        (vp = none → p = 0) ∧
        (∀ q, vp = some q →
           p = ((totalAmount : Int) - (vd.net_deposits + vd.cumulative_profit_share_amount)).toNat
                 * q.protocol_profit_share / PERCENTAGE_PRECISION) ∧
        vd'.cumulative_profit_share_amount = vd.cumulative_profit_share_amount +
          ((totalAmount : Int) - (vd.net_deposits + vd.cumulative_profit_share_amount)) ∧
        vd'.profit_share_fee_paid = vd.profit_share_fee_paid + (m + p) ∧
        vd'.net_deposits = vd.net_deposits ∧
        vd'.vault_shares = vd.vault_shares)) ∧
    vd.cumulative_profit_share_amount ≤ vd'.cumulative_profit_share_amount := by
  unfold calculateProfitShareAndUpdate at h
  cases hta : castUtoI64 totalAmount <;> simp only [hta] at h
  case error => simp at h
  case ok ta =>
  cases hnc : addI vd.net_deposits vd.cumulative_profit_share_amount <;> simp only [hnc] at h
  case error => simp at h
  case ok nc =>
  cases hpr : subI ta nc <;> simp only [hpr] at h
  case error => simp at h
  case ok profit =>
  obtain ⟨hta1, rfl⟩ := castUtoI64_ok_iff.mp hta
  obtain ⟨hnc1, rfl⟩ := addI_ok_iff.mp hnc
  obtain ⟨hpr1, rfl⟩ := subI_ok_iff.mp hpr
  set profit : Int := (totalAmount : Int) -
    (vd.net_deposits + vd.cumulative_profit_share_amount) with hprofdef
  split at h
  case isTrue hp =>
    try simp only [] at h
    cases hmp : mulU U128MAX profit.toNat v.profit_share <;> simp only [hmp] at h
    case error => simp at h
    case ok mp0 =>
    cases hdv : divU mp0 PERCENTAGE_PRECISION <;> simp only [hdv] at h
    case error => simp at h
    case ok mgrA =>
    cases hvp : vp <;> simp only [hvp] at h
    case none =>
      try simp only [] at h
      cases hadd : addU U128MAX mgrA 0 <;> simp only [hadd] at h
      case error => simp at h
      case ok psA =>
      cases hci : castUtoI64Cum profit.toNat <;> simp only [hci] at h
      case error => simp at h
      case ok profI =>
      cases hcu : addI vd.cumulative_profit_share_amount profI <;> simp only [hcu] at h
      case error => simp at h
      case ok cum =>
      try simp only [] at h
      cases hcf : castUtoU64 psA <;> simp only [hcf] at h
      case error => simp at h
      case ok feeU =>
      cases hfe : addU U64MAX vd.profit_share_fee_paid feeU <;> simp only [hfe] at h
      case error => simp at h
      case ok fee =>
      simp only [Prod.mk.injEq, Except.ok.injEq] at h
      obtain ⟨⟨rfl, rfl⟩, rfl⟩ := h
      obtain ⟨hmp1, rfl⟩ := mulU_ok_iff.mp hmp
      obtain ⟨hdv1, rfl⟩ := divU_ok_iff.mp hdv
      obtain ⟨hadd1, rfl⟩ := addU_ok_iff.mp hadd
      obtain ⟨hci1, rfl⟩ := castUtoI64Cum_ok_iff.mp hci
      obtain ⟨hcu1, rfl⟩ := addI_ok_iff.mp hcu
      obtain ⟨hcf1, rfl⟩ := castUtoU64_ok_iff.mp hcf
      obtain ⟨hfe1, rfl⟩ := addU_ok_iff.mp hfe
      refine ⟨⟨fun hle => absurd hp (by omega), fun _ => ?_⟩, by simp <;> omega⟩
      refine ⟨rfl, fun _ => rfl, ?_, by simp <;> omega, by simp, by simp, by simp⟩
      intro q2 hq
      first
        | (exfalso; rw [hvp] at hq; exact Option.noConfusion hq)
        | (exfalso; exact Option.noConfusion hq)
    case some q =>
      try simp only [bind, Except.bind] at h
      cases hq1 : mulU U128MAX profit.toNat q.protocol_profit_share <;> simp only [hq1] at h
      case error => simp at h
      case ok pq =>
      cases hq2 : divU pq PERCENTAGE_PRECISION <;> simp only [hq2] at h
      case error => simp at h
      case ok protA =>
      cases hadd : addU U128MAX mgrA protA <;> simp only [hadd] at h
      case error => simp at h
      case ok psA =>
      cases hci : castUtoI64Cum profit.toNat <;> simp only [hci] at h
      case error => simp at h
      case ok profI =>
      cases hcu : addI vd.cumulative_profit_share_amount profI <;> simp only [hcu] at h
      case error => simp at h
      case ok cum =>
      try simp only [] at h
      cases hcf : castUtoU64 psA <;> simp only [hcf] at h
      case error => simp at h
      case ok feeU =>
      cases hfe : addU U64MAX vd.profit_share_fee_paid feeU <;> simp only [hfe] at h
      case error => simp at h
      case ok fee =>
      simp only [Prod.mk.injEq, Except.ok.injEq] at h
      obtain ⟨⟨rfl, rfl⟩, rfl⟩ := h
      obtain ⟨hmp1, rfl⟩ := mulU_ok_iff.mp hmp
      obtain ⟨hdv1, rfl⟩ := divU_ok_iff.mp hdv
      obtain ⟨hq11, rfl⟩ := mulU_ok_iff.mp hq1
      obtain ⟨hq21, rfl⟩ := divU_ok_iff.mp hq2
      obtain ⟨hadd1, rfl⟩ := addU_ok_iff.mp hadd
      obtain ⟨hci1, rfl⟩ := castUtoI64Cum_ok_iff.mp hci
      obtain ⟨hcu1, rfl⟩ := addI_ok_iff.mp hcu
      obtain ⟨hcf1, rfl⟩ := castUtoU64_ok_iff.mp hcf
      obtain ⟨hfe1, rfl⟩ := addU_ok_iff.mp hfe
      refine ⟨⟨fun hle => absurd hp (by omega), fun _ => ?_⟩, by simp <;> omega⟩
      refine ⟨rfl, ?_, ?_, by simp <;> omega, by simp, by simp, by simp⟩
      · intro hq
        first
          | (exfalso; rw [hvp] at hq; exact Option.noConfusion hq)
          | (exfalso; exact Option.noConfusion hq)
      · intro q2 hq
        first
          | (rw [hvp] at hq; injection hq with hqq; subst hqq; rfl)
          | (injection hq with hqq; subst hqq; rfl)
  case isFalse hp =>
    simp only [Prod.mk.injEq, Except.ok.injEq] at h
    obtain ⟨⟨rfl, rfl⟩, rfl⟩ := h
    exact ⟨⟨fun _ => ⟨rfl, rfl, rfl⟩, fun hgt => absurd hgt hp⟩, le_refl _⟩

theorem claim_C3_witness :
    vdFix.cumulative_profit_share_amount ≤ vdFixCharged.cumulative_profit_share_amount :=
  (claim_C3 vdFix 200 vFix (some vpFix) 20 10 vdFixCharged (by rfl)).2

/-- Claim C9: for every call to `update_cumulative_fuel_amount` at time
`now` with current per-share accumulator `A`: if `now` (as `u32`) is
greater than `last_fuel_update_ts` then (i) when `last_fuel_update_ts`
equals the sentinel start value, no reward is credited and `A` is
snapshotted; (ii) when the depositor's stored accumulator exceeds `A`,
`fuel_amount` and the stored accumulator are reset (the accumulator then
being snapshotted to `A`); (iii) otherwise `fuel_amount` increases by
exactly `(A - stored) * vault_shares / FUEL_SHARE_PRECISION`; in all
three cases the stored accumulator is set to `A` and
`last_fuel_update_ts` to `now`; if `now ≤ last_fuel_update_ts` nothing
changes. -/
theorem claim_C9 (s : St) (now : Int) (A : Nat) :
    (asU32 now > s.vd.last_fuel_update_ts →
      (s.vd.last_fuel_update_ts = MAGIC_FUEL_START_TS →
        updateCumulativeFuelAmount now A s =
          .ok s.vd.fuel_amount
            { s with vd := { s.vd with
                             cumulative_fuel_per_share_amount := A
                             last_fuel_update_ts := asU32 now } }) ∧
      (s.vd.last_fuel_update_ts ≠ MAGIC_FUEL_START_TS →
        A < s.vd.cumulative_fuel_per_share_amount →
        updateCumulativeFuelAmount now A s =
          .ok 0
            { s with vd := { s.vd with
                             fuel_amount := 0
                             cumulative_fuel_per_share_amount := A
                             last_fuel_update_ts := asU32 now } }) ∧
      (s.vd.last_fuel_update_ts ≠ MAGIC_FUEL_START_TS →
        s.vd.cumulative_fuel_per_share_amount ≤ A →
        ∀ f s', updateCumulativeFuelAmount now A s = .ok f s' →
          s'.vd.fuel_amount = s.vd.fuel_amount +
            (A - s.vd.cumulative_fuel_per_share_amount) * s.vd.vault_shares /
              FUEL_SHARE_PRECISION ∧
          s'.vd.cumulative_fuel_per_share_amount = A ∧
          s'.vd.last_fuel_update_ts = asU32 now ∧
          s'.vault = s.vault ∧ s'.vp = s.vp ∧
          s'.vd.vault_shares = s.vd.vault_shares ∧
          f = s'.vd.fuel_amount)) ∧
    (asU32 now ≤ s.vd.last_fuel_update_ts →
      updateCumulativeFuelAmount now A s = .ok s.vd.fuel_amount s) := by
  constructor
  · intro hgt
    refine ⟨?_, ?_, ?_⟩
    · intro hmag
      unfold updateCumulativeFuelAmount
      rw [if_pos hgt, if_neg (by simp [hmag])]
    · intro hmag hlt
      unfold updateCumulativeFuelAmount
      rw [if_pos hgt, if_pos hmag, if_pos hlt]
    · intro hmag hle f s' h
      unfold updateCumulativeFuelAmount at h
      rw [if_pos hgt, if_pos hmag, if_neg (by omega)] at h
      cases hb : validateBase s.vd s.vault <;> simp only [hb] at h
      case error => cases h
      case ok u =>
      cases hsub : subU A s.vd.cumulative_fuel_per_share_amount <;> simp only [hsub] at h
      case error => cases h
      case ok delta =>
      cases hmul : mulU U128MAX delta s.vd.vault_shares <;> simp only [hmul] at h
      case error => cases h
      case ok dm =>
      cases hdiv : divU dm FUEL_SHARE_PRECISION <;> simp only [hdiv] at h
      case error => cases h
      case ok nf =>
      cases hadd : addU U128MAX s.vd.fuel_amount nf <;> simp only [hadd] at h
      case error => cases h
      case ok fuel =>
      obtain ⟨hsub1, rfl⟩ := subU_ok_iff.mp hsub
      obtain ⟨hmul1, rfl⟩ := mulU_ok_iff.mp hmul
      obtain ⟨hdiv1, rfl⟩ := divU_ok_iff.mp hdiv
      obtain ⟨hadd1, rfl⟩ := addU_ok_iff.mp hadd
      simp only [Res.ok.injEq] at h
      obtain ⟨rfl, rfl⟩ := h
      exact ⟨by simp, by simp, by simp, by simp, by simp, by simp, by simp⟩
  · intro hle
    unfold updateCumulativeFuelAmount
    rw [if_neg (by omega)]

theorem claim_C9_witness :
    sFuelAfter.vd.fuel_amount = sFuel.vd.fuel_amount +
      (2 * 10 ^ 18 - sFuel.vd.cumulative_fuel_per_share_amount) * sFuel.vd.vault_shares /
        FUEL_SHARE_PRECISION :=
  (((claim_C9 sFuel 100 (2 * 10 ^ 18)).1 (by decide)).2.2 (by decide) (by decide)
    200 sFuelAfter (by rfl)).1

theorem applyFee_ok {m p : Nat} {s : St} {u : Unit} {s' : St}
    (h : applyFee m p s = .ok u s') :
    s'.vd = s.vd ∧
    s'.vault = { s.vault with total_shares := s.vault.total_shares + feeMint s.vp m p } ∧
    getProtocolShares s'.vp = getProtocolShares s.vp + protMint s.vp p ∧
    s'.vp.isSome = s.vp.isSome := by
  unfold applyFee at h
  cases hvp : s.vp <;> simp only [hvp] at h
  case none =>
    cases ha : addU U128MAX s.vault.total_shares m <;> simp only [ha] at h
    case error => cases h
    case ok t =>
    obtain ⟨ha1, rfl⟩ := addU_ok_iff.mp ha
    simp only [Res.ok.injEq] at h
    obtain ⟨-, rfl⟩ := h
    exact ⟨rfl, by simp [feeMint], by simp [hvp, protMint], by simp [hvp]⟩
  case some q =>
    cases ha : addU U128MAX s.vault.total_shares (m + p) <;> simp only [ha] at h
    case error => cases h
    case ok t =>
    cases hb : addU U128MAX q.protocol_profit_and_fee_shares p <;> simp only [hb] at h
    case error => cases h
    case ok pt =>
    obtain ⟨ha1, rfl⟩ := addU_ok_iff.mp ha
    obtain ⟨hb1, rfl⟩ := addU_ok_iff.mp hb
    simp only [Res.ok.injEq] at h
    obtain ⟨-, rfl⟩ := h
    refine ⟨rfl, by simp [feeMint] <;> omega, ?_, by simp [hvp]⟩
    simp [hvp, getProtocolShares, protMint]

theorem fuel_ok_frame {now : Int} {A f : Nat} {s s' : St}
    (h : updateCumulativeFuelAmount now A s = .ok f s') :
    s'.vault = s.vault ∧ s'.vp = s.vp ∧
    s'.vd = { s.vd with
              fuel_amount := s'.vd.fuel_amount
              cumulative_fuel_per_share_amount := s'.vd.cumulative_fuel_per_share_amount
              last_fuel_update_ts := s'.vd.last_fuel_update_ts } := by
  unfold updateCumulativeFuelAmount at h
  repeat' split at h
  all_goals first
    | exact Res.noConfusion h
    | (simp only [Res.ok.injEq] at h
       obtain ⟨rfl, rfl⟩ := h
       exact ⟨rfl, rfl, by simp⟩)

theorem calcPS_snd_frame (vd : VaultDepositor) (ta : Nat) (v : Vault)
    (vp : Option VaultProtocol) :
    (calculateProfitShareAndUpdate vd ta v vp).2 =
      { vd with
        cumulative_profit_share_amount :=
          (calculateProfitShareAndUpdate vd ta v vp).2.cumulative_profit_share_amount
        profit_share_fee_paid :=
          (calculateProfitShareAndUpdate vd ta v vp).2.profit_share_fee_paid } := by
  unfold calculateProfitShareAndUpdate
  repeat' split
  all_goals rfl

theorem applyPSBase_ok {e : Nat} {s : St} {mgr prot : Nat} {s' : St}
    (h : applyProfitShareBase e s = .ok (mgr, prot) s') :
    ∃ ps pS, pS ≤ ps ∧ ps ≤ s.vd.vault_shares ∧ ps ≤ s.vault.user_shares ∧
      s'.vault = { s.vault with user_shares := s.vault.user_shares - ps } ∧
      getProtocolShares s'.vp = getProtocolShares s.vp + pS ∧
      s'.vp.isSome = s.vp.isSome ∧
      s'.vd = { s.vd with
                vault_shares := s.vd.vault_shares - ps
                cumulative_profit_share_amount := s'.vd.cumulative_profit_share_amount
                profit_share_fee_paid := s'.vd.profit_share_fee_paid } := by
  unfold applyProfitShareBase at h
  cases hta : depositorSharesToVaultAmount s.vd.vault_shares s.vault.total_shares e <;>
    simp only [hta] at h
  case error => cases h
  case ok totalAmount =>
  cases hc : calculateProfitShareAndUpdate s.vd totalAmount s.vault s.vp with
  | mk r vd1 =>
  have hvd1 : vd1 = { s.vd with
      cumulative_profit_share_amount := vd1.cumulative_profit_share_amount
      profit_share_fee_paid := vd1.profit_share_fee_paid } := by
    have := calcPS_snd_frame s.vd totalAmount s.vault s.vp
    rw [hc] at this
    exact this
  cases r <;> simp only [hc] at h
  case error => cases h
  case ok mp0 =>
  cases mp0 with
  | mk mgr0 prot0 =>
  simp only [] at h
  cases hms : vaultAmountToDepositorShares mgr0 s.vault.total_shares e <;>
    simp only [hms] at h
  case error => cases h
  case ok mgrShares =>
  cases hps : vaultAmountToDepositorShares prot0 s.vault.total_shares e <;>
    simp only [hps] at h
  case error => cases h
  case ok protShares =>
  cases hvb : validateBase vd1 s.vault <;> simp only [hvb] at h
  case error => cases h
  case ok =>
  cases hsv : subU vd1.vault_shares (mgrShares + protShares) <;> simp only [hsv] at h
  case error => cases h
  case ok vs =>
  cases hsu : subU s.vault.user_shares (mgrShares + protShares) <;> simp only [hsu] at h
  case error => cases h
  case ok us =>
  obtain ⟨hsv1, rfl⟩ := subU_ok_iff.mp hsv
  obtain ⟨hsu1, rfl⟩ := subU_ok_iff.mp hsu
  have hvs : vd1.vault_shares = s.vd.vault_shares := by rw [hvd1]
  cases hvp : s.vp <;> simp only [hvp] at h
  case none =>
    cases hcm : castUtoU64 mgr0 <;> simp only [hcm] at h
    case error => cases h
    case ok mgrU =>
    cases hcp : castUtoU64 prot0 <;> simp only [hcp] at h
    case error => cases h
    case ok protU =>
    simp only [Res.ok.injEq, Prod.mk.injEq] at h
    obtain ⟨⟨rfl, rfl⟩, rfl⟩ := h
    refine ⟨mgrShares + protShares, 0, ?_, ?_, ?_, ?_, ?_, ?_, ?_⟩
    · omega
    · omega
    · omega
    · simp
    · simp [hvp]
    · simp [hvp]
    · rw [hvd1]
      try simp [hvs]
  case some q =>
    cases hpt : addU U128MAX q.protocol_profit_and_fee_shares protShares <;>
      simp only [hpt] at h
    case error => cases h
    case ok pt =>
    obtain ⟨hpt1, rfl⟩ := addU_ok_iff.mp hpt
    cases hcm : castUtoU64 mgr0 <;> simp only [hcm] at h
    case error => cases h
    case ok mgrU =>
    cases hcp : castUtoU64 prot0 <;> simp only [hcp] at h
    case error => cases h
    case ok protU =>
    simp only [Res.ok.injEq, Prod.mk.injEq] at h
    obtain ⟨⟨rfl, rfl⟩, rfl⟩ := h
    refine ⟨mgrShares + protShares, protShares, ?_, ?_, ?_, ?_, ?_, ?_, ?_⟩
    · omega
    · omega
    · omega
    · simp
    · simp [hvp, getProtocolShares]
    · simp [hvp]
    · rw [hvd1]
      try simp [hvs]

theorem applyPS_ok {e : Nat} {now : Int} {A mgr prot : Nat} {s s' : St}
    (h : applyProfitShare e now A s = .ok (mgr, prot) s') :
    s.vd.last_withdraw_request.pending = false ∧
    ∃ ps pS, pS ≤ ps ∧ ps ≤ s.vd.vault_shares ∧ ps ≤ s.vault.user_shares ∧
      s'.vault = { s.vault with user_shares := s.vault.user_shares - ps } ∧
      getProtocolShares s'.vp = getProtocolShares s.vp + pS ∧
      s'.vp.isSome = s.vp.isSome ∧
      s'.vd.vault_shares = s.vd.vault_shares - ps ∧
      s'.vd.vault_shares_base = s.vd.vault_shares_base ∧
      s'.vd.last_withdraw_request = s.vd.last_withdraw_request ∧
      s'.vd.authority = s.vd.authority ∧
      s'.vd.net_deposits = s.vd.net_deposits ∧
      s'.vd.total_deposits = s.vd.total_deposits ∧
      s'.vd.total_withdraws = s.vd.total_withdraws := by
  unfold applyProfitShare at h
  split at h
  case isTrue => cases h
  case isFalse hpend =>
  cases hf : updateCumulativeFuelAmount now A s with
  | err e s1 => rw [hf] at h; cases h
  | ok f s1 =>
  rw [hf] at h
  obtain ⟨hfv, hfp, hfd⟩ := fuel_ok_frame hf
  obtain ⟨ps, pS, h1, h2, h3, h4, h5, h6, h7⟩ := applyPSBase_ok h
  refine ⟨by simpa using hpend, ps, pS, h1, ?_, ?_, ?_, ?_, ?_, ?_, ?_, ?_, ?_, ?_, ?_, ?_⟩
  · rw [hfd] at h2; simpa using h2
  · rw [hfv] at h3; exact h3
  · rw [h4, hfv]
  · rw [h5, hfp]
  · rw [h6, hfp]
  · rw [h7, hfd]; try simp
  · rw [h7, hfd]; try simp
  · rw [h7, hfd]; try simp
  · rw [h7, hfd]; try simp
  · rw [h7, hfd]; try simp
  · rw [h7, hfd]; try simp
  · rw [h7, hfd]; try simp

theorem withdraw_ok {e : Nat} {now : Int} {A m p : Nat} {s : St} {amt : Nat}
    {fin : Bool} {s' : St}
    (h : withdraw e now A m p s = .ok (amt, fin) s') :
    0 < s.vd.last_withdraw_request.shares ∧
    s.vd.last_withdraw_request.shares ≤ s.vd.vault_shares ∧
    s.vd.last_withdraw_request.ts + s.vault.redeem_period ≤ now ∧
    (∃ shv, depositorSharesToVaultAmount s.vd.last_withdraw_request.shares
        (s.vault.total_shares + feeMint s.vp m p) e = .ok shv ∧
      amt = min shv s.vd.last_withdraw_request.value) ∧
    s'.vd.vault_shares = s.vd.vault_shares - s.vd.last_withdraw_request.shares ∧
    s'.vault.user_shares = s.vault.user_shares - s.vd.last_withdraw_request.shares ∧
    s.vd.last_withdraw_request.shares ≤ s.vault.user_shares ∧
    s'.vault.total_shares =
      s.vault.total_shares + feeMint s.vp m p - s.vd.last_withdraw_request.shares ∧
    s.vd.last_withdraw_request.shares ≤ s.vault.total_shares + feeMint s.vp m p ∧
    s'.vault.total_withdraw_requested =
      s.vault.total_withdraw_requested - s.vd.last_withdraw_request.value ∧
    s.vd.last_withdraw_request.value ≤ s.vault.total_withdraw_requested ∧
    s'.vd.last_withdraw_request = s.vd.last_withdraw_request.reset now ∧
    fin = decide (s.vault.liquidation_delegate = s.vd.authority) ∧
    s'.vault.liquidation_delegate = s.vault.liquidation_delegate ∧
    s'.vd.authority = s.vd.authority ∧
    getProtocolShares s'.vp = getProtocolShares s.vp + protMint s.vp p ∧
    s'.vp.isSome = s.vp.isSome ∧
    s'.vd.cumulative_profit_share_amount = s.vd.cumulative_profit_share_amount ∧
    s'.vd.profit_share_fee_paid = s.vd.profit_share_fee_paid := by
  unfold withdraw at h
  cases hrc : checkRedeemPeriodFinished s.vd.last_withdraw_request s.vault now <;>
    simp only [hrc] at h
  case error => cases h
  case ok =>
  have hrc1 : s.vd.last_withdraw_request.ts + s.vault.redeem_period ≤ now := by
    unfold checkRedeemPeriodFinished at hrc
    cases hsi : subI now s.vd.last_withdraw_request.ts <;> simp only [hsi] at hrc
    case error => cases hrc
    case ok dt =>
    obtain ⟨hb, rfl⟩ := subI_ok_iff.mp hsi
    split at hrc
    case isTrue hge => omega
    case isFalse => cases hrc
  cases hf : updateCumulativeFuelAmount now A s with
  | err e1 t1 => simp only [hf] at h; cases h
  | ok f1 s1 =>
  simp only [hf] at h
  obtain ⟨hfv, hfp, hfd⟩ := fuel_ok_frame hf
  cases hvb : validateBase s1.vd s1.vault <;> simp only [hvb] at h
  case error => cases h
  case ok =>
  split at h
  case isTrue => cases h
  case isFalse hn0 =>
  split at h
  case isTrue => cases h
  case isFalse hnle =>
  cases hfee : applyFee m p s1 with
  | err e2 t2 => simp only [hfee] at h; cases h
  | ok u2 s2 =>
  simp only [hfee] at h
  obtain ⟨hfeeD, hfeeV, hfeeP, hfeeS⟩ := applyFee_ok hfee
  cases ham : depositorSharesToVaultAmount s1.vd.last_withdraw_request.shares
      s2.vault.total_shares e <;> simp only [ham] at h
  case error => cases h
  case ok amount =>
  cases hvb2 : validateBase s2.vd s2.vault <;> simp only [hvb2] at h
  case error => cases h
  case ok =>
  cases hsv : subU s2.vd.vault_shares s1.vd.last_withdraw_request.shares <;>
    simp only [hsv] at h
  case error => cases h
  case ok vs =>
  cases hci : castUtoI64 (min amount s2.vd.last_withdraw_request.value) <;>
    simp only [hci] at h
  case error => cases h
  case ok waI =>
  cases hnd : subI s2.vd.net_deposits waI <;> simp only [hnd] at h
  case error => cases h
  case ok nd =>
  cases hvnd : subI s2.vault.net_deposits waI <;> simp only [hvnd] at h
  case error => cases h
  case ok vnd =>
  cases hts : subU s2.vault.total_shares s1.vd.last_withdraw_request.shares <;>
    simp only [hts] at h
  case error => cases h
  case ok t =>
  cases hus : subU s2.vault.user_shares s1.vd.last_withdraw_request.shares <;>
    simp only [hus] at h
  case error => cases h
  case ok us =>
  cases htw : subU s2.vault.total_withdraw_requested s2.vd.last_withdraw_request.value <;>
    simp only [htw] at h
  case error => cases h
  case ok twr =>
  cases hvb3 : validateBase
      { s2.vd with
        vault_shares := vs
        total_withdraws := satAddU64 s2.vd.total_withdraws (min amount s2.vd.last_withdraw_request.value)
        net_deposits := nd
        last_withdraw_request := s2.vd.last_withdraw_request.reset now }
      { s2.vault with
        total_withdraws := satAddU64 s2.vault.total_withdraws (min amount s2.vd.last_withdraw_request.value)
        net_deposits := vnd
        total_shares := t
        user_shares := us
        total_withdraw_requested := twr } <;> simp only [hvb3] at h
  case error => cases h
  case ok =>
  simp only [Res.ok.injEq, Prod.mk.injEq] at h
  obtain ⟨⟨rfl, rfl⟩, rfl⟩ := h
  obtain ⟨hsv1, rfl⟩ := subU_ok_iff.mp hsv
  obtain ⟨hts1, rfl⟩ := subU_ok_iff.mp hts
  obtain ⟨hus1, rfl⟩ := subU_ok_iff.mp hus
  obtain ⟨htw1, rfl⟩ := subU_ok_iff.mp htw
  have hv2 : s2.vault = { s.vault with
      total_shares := s.vault.total_shares + feeMint s.vp m p } := by
    rw [hfeeV, hfv, hfp]
  have q1 : s1.vd.last_withdraw_request.shares = s.vd.last_withdraw_request.shares := by
    rw [hfd]
  have q2 : s1.vd.last_withdraw_request.value = s.vd.last_withdraw_request.value := by
    rw [hfd]
  have q3 : s2.vd.last_withdraw_request.shares = s.vd.last_withdraw_request.shares := by
    rw [hfeeD, hfd]
  have q4 : s2.vd.last_withdraw_request.value = s.vd.last_withdraw_request.value := by
    rw [hfeeD, hfd]
  have q4r : s2.vd.last_withdraw_request = s.vd.last_withdraw_request := by
    rw [hfeeD, hfd]
  have q5 : s2.vd.vault_shares = s.vd.vault_shares := by rw [hfeeD, hfd]
  have q6 : s2.vault.total_shares = s.vault.total_shares + feeMint s.vp m p := by rw [hv2]
  have q7 : s2.vault.user_shares = s.vault.user_shares := by rw [hv2]
  have q8 : s2.vault.total_withdraw_requested = s.vault.total_withdraw_requested := by
    rw [hv2]
  have q9 : s2.vault.liquidation_delegate = s.vault.liquidation_delegate := by rw [hv2]
  have q10 : s2.vd.authority = s.vd.authority := by rw [hfeeD, hfd]
  have q11 : s2.vd.cumulative_profit_share_amount =
      s.vd.cumulative_profit_share_amount := by rw [hfeeD, hfd]
  have q12 : s2.vd.profit_share_fee_paid = s.vd.profit_share_fee_paid := by
    rw [hfeeD, hfd]
  have hn0x : s.vd.last_withdraw_request.shares ≠ 0 := by
    rw [← q1]; exact hn0
  have hnlex : s.vd.last_withdraw_request.shares ≤ s.vd.vault_shares := by
    have hx := not_not.mp hnle
    have hy : s1.vd.vault_shares = s.vd.vault_shares := by rw [hfd]
    rw [q1, hy] at hx
    exact hx
  refine ⟨by omega, hnlex, hrc1, ?_, ?_, ?_, ?_, ?_, ?_, ?_, ?_, ?_, ?_, ?_, ?_, ?_, ?_, ?_, ?_⟩
  · refine ⟨amount, ?_, ?_⟩
    · rw [q1, q6] at ham
      exact ham
    · rw [q4]
  · simp only [q5, q1]
  · simp only [q7, q1]
  · rw [q1, q7] at hus1
    exact hus1
  · simp only [q6, q1]
  · rw [q1, q6] at hts1
    exact hts1
  · simp only [q8, q4r]
  · rw [q4r, q8] at htw1
    exact htw1
  · simp only [q4r]
  · simp only [q9, q10]
  · simp only [q9]
  · simp only [q10]
  · rw [hfeeP, hfp]
  · rw [hfeeS, hfp]
  · simp only [q11]
  · simp only [q12]

/-- Claim C2: for every successful withdraw with a pending request of
shares `n` and locked-in value `v`, the returned payout equals
`min(shares_value_now, v)`, where `shares_value_now` is the value of `n`
shares at the supplied vault equity and the post-fee `total_shares`; the
depositor's `vault_shares`, `vault.user_shares` and `vault.total_shares`
each decrease by exactly `n` (`total_shares` from its post-fee-mint
value), `vault.total_withdraw_requested` decreases by `v`, and the
request is reset to Empty. -/
theorem claim_C2 (e : Nat) (now : Int) (A m p : Nat) (s : St) (amt : Nat)
    (fin : Bool) (s' : St)
    (h : withdraw e now A m p s = .ok (amt, fin) s') :
    0 < s.vd.last_withdraw_request.shares ∧
    (∃ shv, depositorSharesToVaultAmount s.vd.last_withdraw_request.shares
        (s.vault.total_shares + feeMint s.vp m p) e = .ok shv ∧
      amt = min shv s.vd.last_withdraw_request.value) ∧
    s'.vd.vault_shares + s.vd.last_withdraw_request.shares = s.vd.vault_shares ∧
    s'.vault.user_shares + s.vd.last_withdraw_request.shares = s.vault.user_shares ∧
    s'.vault.total_shares + s.vd.last_withdraw_request.shares =
      s.vault.total_shares + feeMint s.vp m p ∧
    s'.vault.total_withdraw_requested + s.vd.last_withdraw_request.value =
      s.vault.total_withdraw_requested ∧
    s'.vd.last_withdraw_request.shares = 0 ∧
    s'.vd.last_withdraw_request.value = 0 := by
  obtain ⟨w1, w2, w3, w4, w5, w6, w7, w8, w9, w10, w11, w12, w13, w14, w15, w16,
    w17, w18, w19⟩ := withdraw_ok h
  refine ⟨w1, w4, by omega, by omega, by omega, by omega, ?_, ?_⟩
  · rw [w12]; rfl
  · rw [w12]; rfl

theorem claim_C2_witness :
    ∃ amt fin s', withdraw 400 20 0 0 0 sW = .ok (amt, fin) s' ∧
      s'.vd.vault_shares + sW.vd.last_withdraw_request.shares = sW.vd.vault_shares :=
  ⟨100, false, _, rfl, (claim_C2 400 20 0 0 0 sW 100 false _ rfl).2.2.1⟩

theorem withdraw_timelock_err (e : Nat) (now : Int) (A m p : Nat) (s : St)
    (h1 : s.vd.last_withdraw_request.ts ≤ now)
    (h2 : now - s.vd.last_withdraw_request.ts ≤ I64MAX)
    (h3 : now < s.vd.last_withdraw_request.ts + s.vault.redeem_period) :
    withdraw e now A m p s = .err .CannotWithdrawBeforeRedeemPeriodEnd s := by
  unfold withdraw
  have hchk : checkRedeemPeriodFinished s.vd.last_withdraw_request s.vault now =
      .error .CannotWithdrawBeforeRedeemPeriodEnd := by
    unfold checkRedeemPeriodFinished
    have hs : subI now s.vd.last_withdraw_request.ts =
        .ok (now - s.vd.last_withdraw_request.ts) :=
      subI_ok_iff.mpr ⟨⟨by unfold I64MIN; omega, h2⟩, rfl⟩
    simp only [hs]
    rw [if_neg (by omega)]
  rw [hchk]

/-- Claim C7: for every state and inputs with a sane clock (the request
timestamp does not lie in the future and the elapsed time is `i64`-
representable), withdraw fails with the time-lock error — leaving the
state untouched — whenever `now < last_withdraw_request.ts +
redeem_period`, regardless of the supplied vault equity; and only when
`now ≥ request.ts + redeem_period` can it succeed, after which the
request state is Empty. -/
theorem claim_C7 :
    (∀ (e : Nat) (now : Int) (A m p : Nat) (s : St),
       s.vd.last_withdraw_request.ts ≤ now →
       now - s.vd.last_withdraw_request.ts ≤ I64MAX →
       now < s.vd.last_withdraw_request.ts + s.vault.redeem_period →
       withdraw e now A m p s = .err .CannotWithdrawBeforeRedeemPeriodEnd s) ∧
    (∀ (e : Nat) (now : Int) (A m p : Nat) (s : St) (amt : Nat) (fin : Bool) (s' : St),
       withdraw e now A m p s = .ok (amt, fin) s' →
       s.vd.last_withdraw_request.ts + s.vault.redeem_period ≤ now ∧
       s'.vd.last_withdraw_request.shares = 0) := by
  constructor
  · intro e now A m p s h1 h2 h3
    exact withdraw_timelock_err e now A m p s h1 h2 h3
  · intro e now A m p s amt fin s' h
    obtain ⟨w1, w2, w3, w4, w5, w6, w7, w8, w9, w10, w11, w12, w13, w14, w15, w16,
      w17, w18, w19⟩ := withdraw_ok h
    exact ⟨w3, by rw [w12]; rfl⟩

theorem claim_C7_witness :
    sW.vd.last_withdraw_request.ts ≤ 5 ∧
    (5 : Int) - sW.vd.last_withdraw_request.ts ≤ I64MAX ∧
    (5 : Int) < sW.vd.last_withdraw_request.ts + sW.vault.redeem_period ∧
    withdraw 400 5 0 0 0 sW = .err .CannotWithdrawBeforeRedeemPeriodEnd sW :=
  ⟨by decide, by decide, by decide,
   claim_C7.1 400 5 0 0 0 sW (by decide) (by decide) (by decide)⟩

/-- Claim C10 (implicit): for every successful withdraw, the returned
`finishing_liquidation` boolean is true iff `vault.liquidation_delegate`
equals the withdrawing depositor's authority at the time of the call, and
the core withdraw leaves `liquidation_delegate` unchanged — clearing it
is done by the instruction wrapper, and only when the flag is true. -/
theorem claim_C10 :
    (∀ (e : Nat) (now : Int) (A m p : Nat) (s : St) (amt : Nat) (fin : Bool) (s' : St),
       withdraw e now A m p s = .ok (amt, fin) s' →
       (fin = true ↔ s.vault.liquidation_delegate = s.vd.authority) ∧
       s'.vault.liquidation_delegate = s.vault.liquidation_delegate) ∧
    (∀ (e : Nat) (now : Int) (A m p : Nat) (s : St) (amt : Nat) (fin : Bool) (s'' : St),
       withdrawIx e now A m p s = .ok (amt, fin) s'' →
       (fin = true → s''.vault.liquidation_delegate = 0) ∧
       (fin = false → s''.vault.liquidation_delegate = s.vault.liquidation_delegate)) := by
  constructor
  · intro e now A m p s amt fin s' h
    obtain ⟨w1, w2, w3, w4, w5, w6, w7, w8, w9, w10, w11, w12, w13, w14, w15, w16,
      w17, w18, w19⟩ := withdraw_ok h
    constructor
    · rw [w13]
      simp
    · exact w14
  · intro e now A m p s amt fin s'' h
    unfold withdrawIx at h
    cases hw : withdraw e now A m p s with
    | err e1 t1 => rw [hw] at h; cases h
    | ok r s1 =>
    rw [hw] at h
    cases r with
    | mk amt1 fin1 =>
    obtain ⟨w1, w2, w3, w4, w5, w6, w7, w8, w9, w10, w11, w12, w13, w14, w15, w16,
      w17, w18, w19⟩ := withdraw_ok hw
    simp only [] at h
    split at h
    case isTrue hfin =>
      simp only [Res.ok.injEq, Prod.mk.injEq] at h
      obtain ⟨⟨rfl, rfl⟩, rfl⟩ := h
      exact ⟨fun _ => rfl, fun hc => absurd hfin (by rw [hc]; simp)⟩
    case isFalse hfin =>
      simp only [Res.ok.injEq, Prod.mk.injEq] at h
      obtain ⟨⟨rfl, rfl⟩, rfl⟩ := h
      refine ⟨fun hc => absurd hc hfin, fun _ => w14⟩

theorem claim_C10_witness :
    ∃ amt fin s', withdraw 400 20 0 0 0 sW = .ok (amt, fin) s' ∧
      (fin = true ↔ sW.vault.liquidation_delegate = sW.vd.authority) :=
  ⟨100, false, _, rfl, (claim_C10.1 400 20 0 0 0 sW 100 false _ rfl).1⟩

theorem cancel_ok {e : Nat} {now : Int} {A m p : Nat} {s : St} {u : Unit} {s' : St}
    (h : cancelWithdrawRequest e now A m p s = .ok u s') :
    ∃ L, calculateSharesLost s.vd.last_withdraw_request
        { s.vault with total_shares := s.vault.total_shares + feeMint s.vp m p } e =
          .ok L ∧
      ((0 < L ∧ s.vault.total_shares ≠ s.vd.vault_shares) →
        s'.vd.vault_shares + L = s.vd.vault_shares ∧
        s'.vault.user_shares + L = s.vault.user_shares ∧
        s'.vault.total_shares + L = s.vault.total_shares + feeMint s.vp m p) ∧
      (¬(0 < L ∧ s.vault.total_shares ≠ s.vd.vault_shares) →
        s'.vd.vault_shares = s.vd.vault_shares ∧
        s'.vault.user_shares = s.vault.user_shares ∧
        s'.vault.total_shares = s.vault.total_shares + feeMint s.vp m p) ∧
      s'.vault.total_withdraw_requested + s.vd.last_withdraw_request.value =
        s.vault.total_withdraw_requested ∧
      s.vd.last_withdraw_request.value ≤ s.vault.total_withdraw_requested ∧
      s'.vd.last_withdraw_request = s.vd.last_withdraw_request.reset now ∧
      getProtocolShares s'.vp = getProtocolShares s.vp + protMint s.vp p ∧
      s'.vp.isSome = s.vp.isSome ∧
      s'.vd.cumulative_profit_share_amount = s.vd.cumulative_profit_share_amount ∧
      s'.vd.profit_share_fee_paid = s.vd.profit_share_fee_paid := by
  unfold cancelWithdrawRequest at h
  cases hvb : validateBase s.vd s.vault <;> simp only [hvb] at h
  case error => cases h
  case ok =>
  cases hfee : applyFee m p s with
  | err e1 t1 => simp only [hfee] at h; cases h
  | ok u1 s1 =>
  simp only [hfee] at h
  obtain ⟨hfeeD, hfeeV, hfeeP, hfeeS⟩ := applyFee_ok hfee
  cases hf : updateCumulativeFuelAmount now A s1 with
  | err e2 t2 => simp only [hf] at h; cases h
  | ok f1 s2 =>
  simp only [hf] at h
  obtain ⟨hfv, hfp, hfd⟩ := fuel_ok_frame hf
  have hreq : s2.vd.last_withdraw_request = s.vd.last_withdraw_request := by
    rw [hfd, hfeeD]
  have hshares : s2.vd.vault_shares = s.vd.vault_shares := by rw [hfd, hfeeD]
  have hvault : s2.vault = { s.vault with
      total_shares := s.vault.total_shares + feeMint s.vp m p } := by
    rw [hfv, hfeeV]
  have hvp2 : s2.vp = s1.vp := hfp
  have hcum : s2.vd.cumulative_profit_share_amount =
      s.vd.cumulative_profit_share_amount := by rw [hfd, hfeeD]
  have hfee2 : s2.vd.profit_share_fee_paid = s.vd.profit_share_fee_paid := by
    rw [hfd, hfeeD]
  cases hsl : calculateSharesLost s2.vd.last_withdraw_request s2.vault e <;>
    simp only [hsl] at h
  case error => cases h
  case ok L =>
  rw [hreq, hvault] at hsl
  refine ⟨L, hsl, ?_⟩
  by_cases hcond : L > 0 ∧ ¬ s.vault.total_shares = s.vd.vault_shares
  · rw [if_pos hcond] at h
    cases hvb2 : validateBase s2.vd s2.vault <;> simp only [hvb2] at h
    · cases h
    cases hsv : subU s2.vd.vault_shares L <;> simp only [hsv] at h
    · cases h
    rename_i vs
    cases hts : subU s2.vault.total_shares L <;> simp only [hts] at h
    · cases h
    rename_i t
    cases hus : subU s2.vault.user_shares L <;> simp only [hus] at h
    · cases h
    rename_i us
    cases hvb3 : validateBase { s2.vd with vault_shares := vs }
        { s2.vault with total_shares := t, user_shares := us } <;> simp only [hvb3] at h
    · cases h
    cases htw : subU s2.vault.total_withdraw_requested s2.vd.last_withdraw_request.value <;>
      simp only [htw] at h
    · cases h
    rename_i twr
    simp only [Res.ok.injEq] at h
    obtain ⟨-, rfl⟩ := h
    obtain ⟨hsv1, rfl⟩ := subU_ok_iff.mp hsv
    obtain ⟨hts1, rfl⟩ := subU_ok_iff.mp hts
    obtain ⟨hus1, rfl⟩ := subU_ok_iff.mp hus
    obtain ⟨htw1, rfl⟩ := subU_ok_iff.mp htw
    rw [hshares] at hsv1
    rw [hvault] at hts1 hus1
    simp only [] at hts1 hus1
    rw [hreq] at htw1
    rw [hvault] at htw1
    simp only [] at htw1
    refine ⟨fun _ => ⟨by simp [hshares]; omega, by simp [hvault]; omega,
        by simp [hvault]; omega⟩,
      fun hc => absurd hcond hc, ?_, ?_, ?_, ?_, ?_, ?_, ?_⟩
    · simp [hreq, hvault]
      omega
    · exact htw1
    · simp [hreq]
    · rw [hfp, hfeeP]
    · rw [hfp, hfeeS]
    · simp [hcum]
    · simp [hfee2]
  · rw [if_neg hcond] at h
    cases hvb3 : validateBase s2.vd s2.vault <;> simp only [hvb3] at h
    · cases h
    cases htw : subU s2.vault.total_withdraw_requested s2.vd.last_withdraw_request.value <;>
      simp only [htw] at h
    · cases h
    rename_i twr
    simp only [Res.ok.injEq] at h
    obtain ⟨-, rfl⟩ := h
    obtain ⟨htw1, rfl⟩ := subU_ok_iff.mp htw
    rw [hreq] at htw1
    rw [hvault] at htw1
    simp only [] at htw1
    refine ⟨fun hc => absurd hc hcond,
      fun _ => ⟨by simp [hshares], by simp [hvault], by simp [hvault]⟩,
      ?_, ?_, ?_, ?_, ?_, ?_, ?_⟩
    · simp [hreq, hvault]
      omega
    · exact htw1
    · simp [hreq]
    · rw [hfp, hfeeP]
    · rw [hfp, hfeeS]
    · simp [hcum]
    · simp [hfee2]

/-- Claim C4: for every successful `cancel_withdraw_request`, with `L`
the `shares_lost` computed from the stale locked-in snapshot versus the
depositor's current share value: if `L > 0` and the depositor did not own
the entire pool before the cancel, the depositor's `vault_shares`,
`vault.user_shares` and `vault.total_shares` each decrease by exactly `L`
(`total_shares` from its post-fee-mint value); if the depositor owned the
entire pool, no shares are forfeited; in every case
`total_withdraw_requested` decreases by the request's value and the
request transitions to Empty. -/
theorem claim_C4 (e : Nat) (now : Int) (A m p : Nat) (s : St) (u : Unit) (s' : St)
    (h : cancelWithdrawRequest e now A m p s = .ok u s') :
    ∃ L, calculateSharesLost s.vd.last_withdraw_request
        { s.vault with total_shares := s.vault.total_shares + feeMint s.vp m p } e =
          .ok L ∧
      (0 < L → s.vault.total_shares ≠ s.vd.vault_shares →
        s'.vd.vault_shares + L = s.vd.vault_shares ∧
        s'.vault.user_shares + L = s.vault.user_shares ∧
        s'.vault.total_shares + L = s.vault.total_shares + feeMint s.vp m p) ∧
      (s.vault.total_shares = s.vd.vault_shares →
        s'.vd.vault_shares = s.vd.vault_shares ∧
        s'.vault.user_shares = s.vault.user_shares ∧
        s'.vault.total_shares = s.vault.total_shares + feeMint s.vp m p) ∧
      s'.vault.total_withdraw_requested + s.vd.last_withdraw_request.value =
        s.vault.total_withdraw_requested ∧
      s'.vd.last_withdraw_request.shares = 0 ∧
      s'.vd.last_withdraw_request.value = 0 := by
  obtain ⟨L, hL, hpos, hneg, htw, htwle, hreset, hprot, hsome, hcum, hfee⟩ :=
    cancel_ok h
  refine ⟨L, hL, fun hLpos hown => hpos ⟨hLpos, hown⟩, fun hown => ?_, htw, ?_, ?_⟩
  · exact hneg (fun hc => hc.2 hown)
  · rw [hreset]; rfl
  · rw [hreset]; rfl

theorem claim_C4_witness :
    cancelWithdrawRequest 400 0 0 0 0 sC = .ok () sCAfter ∧
    sCAfter.vd.vault_shares + 45 = sC.vd.vault_shares := by
  refine ⟨by rfl, ?_⟩
  obtain ⟨L, hL, hpos, hneg, hrest⟩ := claim_C4 400 0 0 0 0 sC () sCAfter (by rfl)
  have h45 : L = 45 := by
    rw [show calculateSharesLost sC.vd.last_withdraw_request
        { sC.vault with total_shares := sC.vault.total_shares + feeMint sC.vp 0 0 } 400 =
        Except.ok 45 from rfl] at hL
    exact (Except.ok.inj hL).symm
  subst h45
  exact (hpos (by omega) (by decide)).1

theorem protMint_congr {vp vp' : Option VaultProtocol} {x : Nat}
    (h : vp.isSome = vp'.isSome) : protMint vp x = protMint vp' x := by
  cases vp <;> cases vp' <;> simp_all [protMint]

theorem deposit_ok {amount e : Nat} {now : Int} {A m p : Nat} {s : St} {u : Unit}
    {s' : St} (h : deposit amount e now A m p s = .ok u s') :
    s.vd.last_withdraw_request.pending = false ∧
    ∃ n ps pS,
      pS ≤ ps ∧ ps ≤ s.vd.vault_shares ∧ ps ≤ s.vault.user_shares ∧
      vaultAmountToDepositorShares amount (s.vault.total_shares + feeMint s.vp m p) e =
        .ok n ∧
      s'.vd.vault_shares + ps = s.vd.vault_shares + n ∧
      s'.vault.user_shares + ps = s.vault.user_shares + n ∧
      s'.vault.total_shares = s.vault.total_shares + feeMint s.vp m p + n ∧
      getProtocolShares s'.vp = getProtocolShares s.vp + protMint s.vp p + pS ∧
      s'.vp.isSome = s.vp.isSome ∧
      s'.vault.total_withdraw_requested = s.vault.total_withdraw_requested ∧
      s'.vault.liquidation_delegate = s.vault.liquidation_delegate ∧
      s'.vd.last_withdraw_request = s.vd.last_withdraw_request ∧
      (∃ sf uf mid r, applyFee m p s = .ok uf sf ∧
        applyProfitShare e now A sf = .ok r mid ∧
        s'.vd.cumulative_profit_share_amount = mid.vd.cumulative_profit_share_amount ∧
        s'.vd.profit_share_fee_paid = mid.vd.profit_share_fee_paid) := by
  unfold deposit at h
  cases hcap : capacityCheck s.vault e amount <;> simp only [hcap] at h
  case error => cases h
  case ok =>
  split at h
  case isTrue => cases h
  case isFalse hmin =>
  split at h
  case isTrue => cases h
  case isFalse heq =>
  split at h
  case isTrue => cases h
  case isFalse hpend =>
  cases hvb : validateBase s.vd s.vault <;> simp only [hvb] at h
  case error => cases h
  case ok =>
  cases hfee : applyFee m p s with
  | err e1 t1 => simp only [hfee] at h; cases h
  | ok u1 s1 =>
  simp only [hfee] at h
  obtain ⟨hfeeD, hfeeV, hfeeP, hfeeS⟩ := applyFee_ok hfee
  cases hps : applyProfitShare e now A s1 with
  | err e2 t2 => simp only [hps] at h; cases h
  | ok r s2 =>
  simp only [hps] at h
  cases r with
  | mk mgr prot =>
  obtain ⟨hpend1, ps, pS, hx1, hx2, hx3, hx4, hx5, hx6, hx7, hx8, hx9, hx10, hx11,
    hx12, hx13⟩ := applyPS_ok hps
  cases hn : vaultAmountToDepositorShares amount s2.vault.total_shares e <;>
    simp only [hn] at h
  case error => cases h
  case ok n =>
  cases hci : castUtoI64 amount <;> simp only [hci] at h
  case error => cases h
  case ok amtI =>
  cases hnd : addI s2.vd.net_deposits amtI <;> simp only [hnd] at h
  case error => cases h
  case ok nd =>
  cases hvnd : addI s2.vault.net_deposits amtI <;> simp only [hvnd] at h
  case error => cases h
  case ok vnd =>
  cases hvb2 : validateBase
      { s2.vd with
        total_deposits := satAddU64 s2.vd.total_deposits amount
        net_deposits := nd }
      { s2.vault with
        total_deposits := satAddU64 s2.vault.total_deposits amount
        net_deposits := vnd } <;> simp only [hvb2] at h
  case error => cases h
  case ok =>
  cases hvs : addU U128MAX s2.vd.vault_shares n <;> simp only [hvs] at h
  case error => cases h
  case ok vs =>
  cases hts : addU U128MAX s2.vault.total_shares n <;> simp only [hts] at h
  case error => cases h
  case ok ts2 =>
  cases hus : addU U128MAX s2.vault.user_shares n <;> simp only [hus] at h
  case error => cases h
  case ok us2 =>
  cases hvb3 : validateBase
      { s2.vd with
        total_deposits := satAddU64 s2.vd.total_deposits amount
        net_deposits := nd
        vault_shares := vs }
      { s2.vault with
        total_deposits := satAddU64 s2.vault.total_deposits amount
        net_deposits := vnd
        total_shares := ts2
        user_shares := us2 } <;> simp only [hvb3] at h
  case error => cases h
  case ok =>
  simp only [Res.ok.injEq] at h
  obtain ⟨-, rfl⟩ := h
  obtain ⟨hvs1, rfl⟩ := addU_ok_iff.mp hvs
  obtain ⟨hts1, rfl⟩ := addU_ok_iff.mp hts
  obtain ⟨hus1, rfl⟩ := addU_ok_iff.mp hus
  have hd1 : s1.vd = s.vd := hfeeD
  have hv1t : s1.vault.user_shares = s.vault.user_shares := by rw [hfeeV]
  have hs2vs : s2.vd.vault_shares = s.vd.vault_shares - ps := by rw [hx7, hd1]
  have hs2u : s2.vault.user_shares = s.vault.user_shares - ps := by
    rw [hx4]
    simp [hv1t]
  have hs2t : s2.vault.total_shares = s.vault.total_shares + feeMint s.vp m p := by
    rw [hx4]
    simp
    rw [hfeeV]
  have hs2twr : s2.vault.total_withdraw_requested =
      s.vault.total_withdraw_requested := by
    rw [hx4]
    simp
    rw [hfeeV]
  have hs2ld : s2.vault.liquidation_delegate = s.vault.liquidation_delegate := by
    rw [hx4]
    simp
    rw [hfeeV]
  have hs2req : s2.vd.last_withdraw_request = s.vd.last_withdraw_request := by
    rw [hx9, hd1]
  have hps1 : ps ≤ s.vd.vault_shares := by rw [hd1] at hx2; exact hx2
  have hps2 : ps ≤ s.vault.user_shares := by rw [← hv1t]; exact hx3
  refine ⟨by simpa using hpend,
    n, ps, pS, hx1, hps1, hps2, ?_, ?_, ?_, ?_, ?_, ?_, ?_, ?_, ?_, ?_⟩
  · rw [hs2t] at hn; exact hn
  · simp only [hs2vs]
    omega
  · simp only [hs2u]
    omega
  · simp only [hs2t]
  · rw [hx5, hfeeP]
    try omega
  · rw [hx6, hfeeS]
  · simp only [hs2twr]
  · simp only [hs2ld]
  · simp only [hs2req]
  · exact ⟨s1, u1, s2, (mgr, prot), rfl, hps, by simp, by simp⟩

theorem deposit_precond_err (amount e : Nat) (now : Int) (A m p : Nat) (s : St)
    (h : (s.vault.max_tokens ≠ 0 ∧ s.vault.max_tokens < e + amount) ∨
         (s.vault.min_deposit_amount ≠ 0 ∧ amount < s.vault.min_deposit_amount) ∨
         (e = 0 ∧ s.vault.total_shares ≠ 0) ∨
         s.vd.last_withdraw_request.pending = true) :
    ∃ err, deposit amount e now A m p s = .err err s := by
  cases hcap : capacityCheck s.vault e amount with
  | error e0 =>
    exact ⟨e0, by unfold deposit; simp only [hcap]⟩
  | ok u0 =>
  have hcap' : s.vault.max_tokens = 0 ∨ e + amount ≤ s.vault.max_tokens := by
    unfold capacityCheck at hcap
    split at hcap
    · left; assumption
    · cases haddU : addU U64MAX e amount <;> simp only [haddU] at hcap
      case error => cases hcap
      case ok t =>
      obtain ⟨hb, rfl⟩ := addU_ok_iff.mp haddU
      split at hcap
      case isTrue hge => right; omega
      case isFalse => cases hcap
  by_cases h1 : ¬(s.vault.min_deposit_amount = 0 ∨ s.vault.min_deposit_amount ≤ amount)
  · exact ⟨.InvalidVaultDeposit, by unfold deposit; simp only [hcap]; rw [if_pos h1]⟩
  by_cases h2 : e = 0 ∧ s.vault.total_shares ≠ 0
  · exact ⟨.InvalidVaultForNewDepositors,
      by unfold deposit; simp only [hcap]; rw [if_neg h1, if_pos h2]⟩
  by_cases h3 : s.vd.last_withdraw_request.pending = true
  · exact ⟨.WithdrawInProgress,
      by unfold deposit; simp only [hcap]; rw [if_neg h1, if_neg h2, if_pos h3]⟩
  exfalso
  rcases h with ⟨ha1, ha2⟩ | hb | hc | hd
  · rcases hcap' with h0 | h0 <;> omega
  · have hmin := not_not.mp h1
    omega
  · exact h2 hc
  · exact h3 hd

/-- Claim C8: `deposit` returns an error — crediting nothing, the state
left exactly as it was — whenever any of these holds: (a) `max_tokens ≠ 0`
and `vault_equity + amount > max_tokens` (pool at capacity); (b)
`min_deposit_amount ≠ 0` and `amount < min_deposit_amount`; (c)
`vault_equity = 0` while `vault.total_shares ≠ 0` (ill-defined share
price); or (d) the depositor's withdraw request is Pending. -/
theorem claim_C8 (amount e : Nat) (now : Int) (A m p : Nat) (s : St)
    (h : (s.vault.max_tokens ≠ 0 ∧ s.vault.max_tokens < e + amount) ∨
         (s.vault.min_deposit_amount ≠ 0 ∧ amount < s.vault.min_deposit_amount) ∨
         (e = 0 ∧ s.vault.total_shares ≠ 0) ∨
         s.vd.last_withdraw_request.pending = true) :
    ∃ err, deposit amount e now A m p s = .err err s :=
  deposit_precond_err amount e now A m p s h

theorem claim_C8_witness :
    ∃ err, deposit 5 400 0 0 0 0 sW = .err err sW :=
  claim_C8 5 400 0 0 0 0 sW (Or.inr (Or.inr (Or.inr (by decide))))

theorem request_ok {wa : Nat} {unit : WithdrawUnit} {e : Nat} {now : Int}
    {A m p : Nat} {s : St} {u : Unit} {s' : St}
    (h : requestWithdraw wa unit e now A m p s = .ok u s') :
    ∃ ps pS wv,
      pS ≤ ps ∧ ps ≤ s.vd.vault_shares ∧ ps ≤ s.vault.user_shares ∧
      s'.vd.vault_shares + ps = s.vd.vault_shares ∧
      s'.vault.user_shares + ps = s.vault.user_shares ∧
      s'.vault.total_shares = s.vault.total_shares + feeMint s.vp m p ∧
      getProtocolShares s'.vp = getProtocolShares s.vp + protMint s.vp p + pS ∧
      s'.vp.isSome = s.vp.isSome ∧
      s'.vault.total_withdraw_requested = s.vault.total_withdraw_requested + wv ∧
      s'.vd.last_withdraw_request.value = wv ∧
      0 < s'.vd.last_withdraw_request.shares ∧
      (∃ sf uf mid r, applyFee m p s = .ok uf sf ∧
        applyProfitShare e now A sf = .ok r mid ∧
        s'.vd.cumulative_profit_share_amount = mid.vd.cumulative_profit_share_amount ∧
        s'.vd.profit_share_fee_paid = mid.vd.profit_share_fee_paid) := by
  unfold requestWithdraw at h
  cases hfee : applyFee m p s with
  | err e1 t1 => simp only [hfee] at h; cases h
  | ok u1 s1 =>
  simp only [hfee] at h
  obtain ⟨hfeeD, hfeeV, hfeeP, hfeeS⟩ := applyFee_ok hfee
  cases hps : applyProfitShare e now A s1 with
  | err e2 t2 => simp only [hps] at h; cases h
  | ok r s2 =>
  simp only [hps] at h
  cases r with
  | mk mgr prot =>
  obtain ⟨hpend1, ps, pS, hx1, hx2, hx3, hx4, hx5, hx6, hx7, hx8, hx9, hx10, hx11,
    hx12, hx13⟩ := applyPS_ok hps
  cases hwv : unit.getWithdrawValueAndShares wa e s2.vd.vault_shares
      s2.vault.total_shares <;> simp only [hwv] at h
  case error => cases h
  case ok pr =>
  cases pr with
  | mk wv n =>
  simp only [] at h
  split at h
  case isTrue => cases h
  case isFalse hn0 =>
  cases hvb : validateBase s2.vd s2.vault <;> simp only [hvb] at h
  case error => cases h
  case ok =>
  cases htw : addU U64MAX s2.vault.total_withdraw_requested wv <;> simp only [htw] at h
  case error => cases h
  case ok twr =>
  cases hvb2 : validateBase
      { s2.vd with last_withdraw_request :=
          s2.vd.last_withdraw_request.set s2.vd.vault_shares n wv e now }
      { s2.vault with total_withdraw_requested := twr } <;> simp only [hvb2] at h
  case error => cases h
  case ok =>
  simp only [Res.ok.injEq] at h
  obtain ⟨-, rfl⟩ := h
  obtain ⟨htw1, rfl⟩ := addU_ok_iff.mp htw
  have hd1 : s1.vd = s.vd := hfeeD
  have hv1u : s1.vault.user_shares = s.vault.user_shares := by rw [hfeeV]
  have hs2vs : s2.vd.vault_shares = s.vd.vault_shares - ps := by rw [hx7, hd1]
  have hs2u : s2.vault.user_shares = s.vault.user_shares - ps := by
    rw [hx4]; simp [hv1u]
  have hs2t : s2.vault.total_shares = s.vault.total_shares + feeMint s.vp m p := by
    rw [hx4]; simp; rw [hfeeV]
  have hs2twr : s2.vault.total_withdraw_requested =
      s.vault.total_withdraw_requested := by
    rw [hx4]; simp; rw [hfeeV]
  have hps1 : ps ≤ s.vd.vault_shares := by rw [hd1] at hx2; exact hx2
  have hps2 : ps ≤ s.vault.user_shares := by rw [← hv1u]; exact hx3
  refine ⟨ps, pS, wv, hx1, hps1, hps2, ?_, ?_, ?_, ?_, ?_, ?_, ?_, ?_, ?_⟩
  · simp only [hs2vs]
    omega
  · simp only [hs2u]
    omega
  · simp only [hs2t]
  · simp only []
    rw [hx5, hfeeP]
    try omega
  · rw [hx6, hfeeS]
  · simp only [hs2twr]
  · rfl
  · simp only [WithdrawRequest.set]
    omega
  · exact ⟨s1, u1, s2, (mgr, prot), rfl, hps, by simp, by simp⟩

theorem realize_ok {e : Nat} {now : Int} {A m p : Nat} {s : St} {r : Nat} {s' : St}
    (h : realizeProfits e now A m p s = .ok r s') :
    ∃ ps pS,
      pS ≤ ps ∧ ps ≤ s.vd.vault_shares ∧ ps ≤ s.vault.user_shares ∧
      s'.vd.vault_shares + ps = s.vd.vault_shares ∧
      s'.vault.user_shares + ps = s.vault.user_shares ∧
      s'.vault.total_shares = s.vault.total_shares + feeMint s.vp m p ∧
      getProtocolShares s'.vp = getProtocolShares s.vp + protMint s.vp p + pS ∧
      s'.vp.isSome = s.vp.isSome ∧
      s'.vault.total_withdraw_requested = s.vault.total_withdraw_requested := by
  unfold realizeProfits at h
  cases hfee : applyFee m p s with
  | err e1 t1 => simp only [hfee] at h; cases h
  | ok u1 s1 =>
  simp only [hfee] at h
  obtain ⟨hfeeD, hfeeV, hfeeP, hfeeS⟩ := applyFee_ok hfee
  cases hvb : validateBase s1.vd s1.vault <;> simp only [hvb] at h
  case error => cases h
  case ok =>
  cases hps : applyProfitShare e now A s1 with
  | err e2 t2 => simp only [hps] at h; cases h
  | ok r2 s2 =>
  simp only [hps] at h
  cases r2 with
  | mk mgr prot =>
  obtain ⟨hpend1, ps, pS, hx1, hx2, hx3, hx4, hx5, hx6, hx7, hx8, hx9, hx10, hx11,
    hx12, hx13⟩ := applyPS_ok hps
  simp only [Res.ok.injEq] at h
  obtain ⟨-, rfl⟩ := h
  have hd1 : s1.vd = s.vd := hfeeD
  have hv1u : s1.vault.user_shares = s.vault.user_shares := by rw [hfeeV]
  refine ⟨ps, pS, hx1, by rw [hd1] at hx2; exact hx2, by rw [← hv1u]; exact hx3,
    ?_, ?_, ?_, ?_, ?_, ?_⟩
  · rw [hx7, hd1]
    rw [hd1] at hx2
    omega
  · rw [hx4]
    simp [hv1u]
    rw [← hv1u]
    omega
  · rw [hx4]
    simp
    rw [hfeeV]
  · rw [hx5, hfeeP]
    try omega
  · rw [hx6, hfeeS]
  · rw [hx4]
    simp
    rw [hfeeV]

/-- Counterexample to claim C6 as stated: at the concrete state `sC` —
a depositor with 100 shares, zero cost basis and a pending request, in a
pool whose valuation implies a strictly positive profit of 200 —
`cancel_withdraw_request` succeeds yet leaves the depositor's
`cumulative_profit_share_amount` and `profit_share_fee_paid` untouched,
although a profit-share settlement at the same valuation charges the
manager 20 and ratchets the high-water mark to 200. So profit-share
settlement is not performed by cancel (nor, symmetrically, by withdraw). -/
theorem claim_C6_counterexample :
    cancelWithdrawRequest 400 0 0 0 0 sC = .ok () sCAfter ∧
    sCAfter.vd.cumulative_profit_share_amount = sC.vd.cumulative_profit_share_amount ∧
    sCAfter.vd.profit_share_fee_paid = sC.vd.profit_share_fee_paid ∧
    (calculateProfitShareAndUpdate sC.vd 200 sC.vault sC.vp).1 = .ok (20, 0) ∧
    (calculateProfitShareAndUpdate sC.vd 200 sC.vault
        sC.vp).2.cumulative_profit_share_amount = 200 :=
  ⟨rfl, rfl, rfl, rfl, rfl⟩

/-- Claim C6, amended: profit-share settlement is performed — after the
management fee, before the operation's own effect — in `deposit` and
`request_withdraw`; `cancel_withdraw_request` and `withdraw` do not
settle profit share (they leave the depositor's profit-share fields
unchanged); and profit-share settlement as a standalone operation fails
while a withdraw request is Pending. -/
theorem claim_C6_amended :
    (∀ (amount e : Nat) (now : Int) (A m p : Nat) (s : St) (u : Unit) (s' : St),
       deposit amount e now A m p s = .ok u s' →
       ∃ sf uf mid r, applyFee m p s = .ok uf sf ∧
         applyProfitShare e now A sf = .ok r mid ∧
         s'.vd.cumulative_profit_share_amount = mid.vd.cumulative_profit_share_amount ∧
         s'.vd.profit_share_fee_paid = mid.vd.profit_share_fee_paid) ∧
    (∀ (wa : Nat) (unit : WithdrawUnit) (e : Nat) (now : Int) (A m p : Nat)
       (s : St) (u : Unit) (s' : St),
       requestWithdraw wa unit e now A m p s = .ok u s' →
       ∃ sf uf mid r, applyFee m p s = .ok uf sf ∧
         applyProfitShare e now A sf = .ok r mid ∧
         s'.vd.cumulative_profit_share_amount = mid.vd.cumulative_profit_share_amount ∧
         s'.vd.profit_share_fee_paid = mid.vd.profit_share_fee_paid) ∧
    (∀ (e : Nat) (now : Int) (A : Nat) (s : St),
       s.vd.last_withdraw_request.pending = true →
       applyProfitShare e now A s = .err .InvalidVaultDeposit s) ∧
    (∀ (e : Nat) (now : Int) (A m p : Nat) (s : St) (u : Unit) (s' : St),
       cancelWithdrawRequest e now A m p s = .ok u s' →
       s'.vd.cumulative_profit_share_amount = s.vd.cumulative_profit_share_amount ∧
       s'.vd.profit_share_fee_paid = s.vd.profit_share_fee_paid) ∧
    (∀ (e : Nat) (now : Int) (A m p : Nat) (s : St) (amt : Nat) (fin : Bool) (s' : St),
       withdraw e now A m p s = .ok (amt, fin) s' →
       s'.vd.cumulative_profit_share_amount = s.vd.cumulative_profit_share_amount ∧
       s'.vd.profit_share_fee_paid = s.vd.profit_share_fee_paid) := by
  refine ⟨?_, ?_, ?_, ?_, ?_⟩
  · intro amount e now A m p s u s' h
    obtain ⟨-, n, ps, pS, -, -, -, -, -, -, -, -, -, -, -, -, hset⟩ := deposit_ok h
    exact hset
  · intro wa unit e now A m p s u s' h
    obtain ⟨ps, pS, wv, -, -, -, -, -, -, -, -, -, -, -, hset⟩ := request_ok h
    exact hset
  · intro e now A s hpend
    unfold applyProfitShare
    rw [if_pos hpend]
  · intro e now A m p s u s' h
    obtain ⟨L, -, -, -, -, -, -, -, -, hcum, hfee⟩ := cancel_ok h
    exact ⟨hcum, hfee⟩
  · intro e now A m p s amt fin s' h
    obtain ⟨-, -, -, -, -, -, -, -, -, -, -, -, -, -, -, -, -, w18, w19⟩ :=
      withdraw_ok h
    exact ⟨w18, w19⟩

theorem claim_C6_amended_witness :
    applyProfitShare 400 7 0 sC = .err .InvalidVaultDeposit sC :=
  claim_C6_amended.2.2.1 400 7 0 sC (by decide)

/-- Counterexample to claim C5 as stated: depositing 1 token into `sOvf`
passes every precondition, then overflows the depositor's `net_deposits`
after the depositor's `total_deposits` counter has already been written —
the operation returns an error with the depositor record already mutated
(`total_deposits` is 1, not 0), so not every error path leaves the
records exactly as they were. -/
theorem claim_C5_counterexample :
    deposit 1 0 0 0 0 0 sOvf =
      .err .MathError
        { sOvf with vd := { sOvf.vd with total_deposits := 1 } } ∧
    ¬ ({ sOvf with vd := { sOvf.vd with total_deposits := 1 } } = sOvf) :=
  ⟨rfl, by decide⟩

/-- Claim C5, amended: the precondition validations precede every write,
so an error raised by them leaves the vault and depositor records exactly
as they were: shown for `deposit`'s four precondition checks and for
`withdraw`'s time-lock check. Arithmetic failures raised after the first
field is written can leave the records partially mutated — whole-call
atomicity for those paths is provided by the external account framework,
which discards all changes of a failed instruction. -/
theorem claim_C5_amended :
    (∀ (amount e : Nat) (now : Int) (A m p : Nat) (s : St),
       ((s.vault.max_tokens ≠ 0 ∧ s.vault.max_tokens < e + amount) ∨
        (s.vault.min_deposit_amount ≠ 0 ∧ amount < s.vault.min_deposit_amount) ∨
        (e = 0 ∧ s.vault.total_shares ≠ 0) ∨
        s.vd.last_withdraw_request.pending = true) →
       ∃ err, deposit amount e now A m p s = .err err s) ∧
    (∀ (e : Nat) (now : Int) (A m p : Nat) (s : St),
       s.vd.last_withdraw_request.ts ≤ now →
       now - s.vd.last_withdraw_request.ts ≤ I64MAX →
       now < s.vd.last_withdraw_request.ts + s.vault.redeem_period →
       withdraw e now A m p s = .err .CannotWithdrawBeforeRedeemPeriodEnd s) :=
  ⟨fun amount e now A m p s h => deposit_precond_err amount e now A m p s h,
   fun e now A m p s h1 h2 h3 => withdraw_timelock_err e now A m p s h1 h2 h3⟩

theorem claim_C5_amended_witness :
    ∃ err, deposit 7 400 0 0 0 0 sC = .err err sC :=
  claim_C5_amended.1 7 400 0 0 0 0 sC (Or.inr (Or.inr (Or.inr (by decide))))

theorem sumShares_set (l : List VaultDepositor) (i : Nat) (vd vd' : VaultDepositor)
    (h : l.get? i = some vd) :
    sumShares (l.set i vd') + vd.vault_shares = sumShares l + vd'.vault_shares := by
  induction l generalizing i with
  | nil => cases h
  | cons a rest ih =>
    cases i with
    | zero =>
      simp only [List.get?] at h
      cases h
      simp only [List.set, sumShares]
      omega
    | succ j =>
      simp only [List.get?] at h
      simp only [List.set, sumShares]
      have := ih j h
      omega

theorem protMint_le_feeMint (vp : Option VaultProtocol) (m p : Nat) :
    protMint vp p ≤ feeMint vp m p := by
  cases vp <;> simp [protMint, feeMint]

theorem step_preserves_inv {sys sys' : Sys} (hInv : Inv sys) (h : Step sys sys') :
    Inv sys' := by
  obtain ⟨hsum, hle⟩ := hInv
  cases h with
  | deposit i vd amount e now A m p u st' hget hop =>
    obtain ⟨-, n, ps, pS, hx1, hx2, hx3, -, h5, h6, h7, h8, -, -, -, -, -⟩ :=
      deposit_ok hop
    simp only [subSt] at hx2 hx3 h5 h6 h7 h8
    have hss := sumShares_set sys.vds i vd st'.vd hget
    have hpf := protMint_le_feeMint sys.vp m p
    constructor
    · simp only [sysUpdate]
      omega
    · simp only [sysUpdate]
      omega
  | request i vd wa unit e now A m p u st' hget hop =>
    obtain ⟨ps, pS, wv, hx1, hx2, hx3, h4, h5, h6, h7, -, -, -, -, -⟩ :=
      request_ok hop
    simp only [subSt] at hx2 hx3 h4 h5 h6 h7
    have hss := sumShares_set sys.vds i vd st'.vd hget
    have hpf := protMint_le_feeMint sys.vp m p
    constructor
    · simp only [sysUpdate]
      omega
    · simp only [sysUpdate]
      omega
  | cancel i vd e now A m p u st' hget hop =>
    obtain ⟨L, -, hpos, hneg, -, -, -, h7, -, -, -⟩ := cancel_ok hop
    simp only [subSt] at hpos hneg h7
    have hss := sumShares_set sys.vds i vd st'.vd hget
    have hpf := protMint_le_feeMint sys.vp m p
    by_cases hc : 0 < L ∧ sys.vault.total_shares ≠ vd.vault_shares
    · obtain ⟨e1, e2, e3⟩ := hpos hc
      constructor
      · simp only [sysUpdate]
        omega
      · simp only [sysUpdate]
        omega
    · obtain ⟨e1, e2, e3⟩ := hneg hc
      constructor
      · simp only [sysUpdate]
        omega
      · simp only [sysUpdate]
        omega
  | withdraw i vd e now A m p amt fin st' hget hop =>
    obtain ⟨-, w2, -, -, w5, w6, w7, w8, w9, -, -, -, -, -, -, w16, -, -, -⟩ :=
      withdraw_ok hop
    simp only [subSt] at w2 w5 w6 w7 w8 w9 w16
    have hss := sumShares_set sys.vds i vd st'.vd hget
    have hpf := protMint_le_feeMint sys.vp m p
    constructor
    · simp only [sysUpdate]
      omega
    · simp only [sysUpdate]
      omega
  | fee i vd m p u st' hget hop =>
    obtain ⟨hfd, hfv, hfp, hfs⟩ := applyFee_ok hop
    simp only [subSt] at hfd hfv hfp
    have hss := sumShares_set sys.vds i vd st'.vd hget
    have hpf := protMint_le_feeMint sys.vp m p
    have h1 : st'.vd.vault_shares = vd.vault_shares := by rw [hfd]
    have h2 : st'.vault.user_shares = sys.vault.user_shares := by rw [hfv]
    have h3 : st'.vault.total_shares =
        sys.vault.total_shares + feeMint sys.vp m p := by rw [hfv]
    constructor
    · simp only [sysUpdate]
      omega
    · simp only [sysUpdate]
      omega
  | realize i vd e now A m p r st' hget hop =>
    obtain ⟨ps, pS, hx1, hx2, hx3, h4, h5, h6, h7, -, -⟩ := realize_ok hop
    simp only [subSt] at hx2 hx3 h4 h5 h6 h7
    have hss := sumShares_set sys.vds i vd st'.vd hget
    have hpf := protMint_le_feeMint sys.vp m p
    constructor
    · simp only [sysUpdate]
      omega
    · simp only [sysUpdate]
      omega

/-- Claim C1 (conservation): for every sequence of deposit,
request-withdraw, cancel, withdraw and fee operations starting from a
state satisfying the conservation invariant, at every point between
operations the vault satisfies `total_shares = user_shares +
manager_shares + protocol_shares` (manager shares being the derived
complement) and `user_shares` equals the sum of all depositors'
`vault_shares`. In particular each operation changes `vault.user_shares`
and the acting depositor's `vault_shares` by the same amount (both always
equal the depositor-share sum), and changes `vault.total_shares`
consistently with that amount. -/
theorem claim_C1 (sys sys' : Sys) (hInv : Inv sys)
    (h : Relation.ReflTransGen Step sys sys') :
    Inv sys' ∧
    sys'.vault.user_shares = sumShares sys'.vds ∧
    (∃ M, getManagerShares sys'.vault sys'.vp = .ok M ∧
       sys'.vault.total_shares =
         sys'.vault.user_shares + M + getProtocolShares sys'.vp) := by
  have hInv' : Inv sys' := by
    induction h with
    | refl => exact hInv
    | tail hstar hstep ih => exact step_preserves_inv ih hstep
  obtain ⟨h1, h2⟩ := hInv'
  have e1 : subU sys'.vault.total_shares sys'.vault.user_shares =
      .ok (sys'.vault.total_shares - sys'.vault.user_shares) :=
    subU_ok_iff.mpr ⟨by omega, rfl⟩
  have e2 : subU (sys'.vault.total_shares - sys'.vault.user_shares)
      (getProtocolShares sys'.vp) =
      .ok (sys'.vault.total_shares - sys'.vault.user_shares -
        getProtocolShares sys'.vp) :=
    subU_ok_iff.mpr ⟨by omega, rfl⟩
  refine ⟨⟨h1, h2⟩, h1,
    ⟨sys'.vault.total_shares - sys'.vault.user_shares - getProtocolShares sys'.vp,
     ?_, by omega⟩⟩
  simp only [getManagerShares, bind, Except.bind, e1, e2]

theorem claim_C1_witness :
    ∃ sys', Relation.ReflTransGen Step sys0 sys' ∧ Inv sys' :=
  ⟨_, Relation.ReflTransGen.single
        (Step.deposit sys0 0 vdFix 100 400 0 0 0 0 () _ rfl rfl),
   (claim_C1 sys0 _ (by decide)
      (Relation.ReflTransGen.single
        (Step.deposit sys0 0 vdFix 100 400 0 0 0 0 () _ rfl rfl))).1⟩

end DriftVaults
